import Mathlib

/-!
Verification development for the VoxelToyBox engine: a shallow embedding of
the voxel simulation and transition engine (`VoxelEngine.ts`, feature-superset
variant with mirror mode, selection and paint bucket) together with theorems
about its editing operations, history stack, assignment solver and physics
integrator.

Modelling conventions:
* JS numbers are modelled as `ℚ` (all constants involved are exact decimals);
  colors are the raw `0xRRGGBB` integer (`THREE.Color` hex round-trips).
* The per-frame tick takes the current wall-clock time as an explicit argument
  (`Date.now()` oracle); random choices (`Math.random()`) are explicit oracle
  parameters.
* Stacks grow at the head (`push` = `cons`); evicting the oldest entry of the
  undo stack is `List.take 50` after the push.
-/

namespace VoxelToy

/-- Voxel material kinds (TS enum `VoxelMaterial`: MATTE = 0, METAL = 1, GLOW = 2). -/
inductive VoxelMaterial where
  | matte
  | metal
  | glow
deriving DecidableEq, Repr

/-- Engine transition states (TS enum `AppState`). -/
inductive AppState where
  | stable
  | dismantling
  | rebuilding
deriving DecidableEq, Repr

/-- UI modes (TS enum `AppMode`). -/
inductive AppMode where
  | view
  | build
deriving DecidableEq, Repr

/-- Persisted voxel record (TS interface `VoxelData`); `material` is optional. -/
structure VoxelData where
  x : ℚ
  y : ℚ
  z : ℚ
  color : Nat
  material : Option VoxelMaterial
deriving DecidableEq, Repr

/-- Live simulation particle (TS interface `SimulationVoxel`). -/
structure SimulationVoxel where
  id : ℚ
  x : ℚ
  y : ℚ
  z : ℚ
  color : Nat
  material : VoxelMaterial
  vx : ℚ
  vy : ℚ
  vz : ℚ
  rx : ℚ
  ry : ℚ
  rz : ℚ
  rvx : ℚ
  rvy : ℚ
  rvz : ℚ
deriving DecidableEq, Repr

/-- Per-source-voxel rebuild destination (TS interface `RebuildTarget`).
In the source, matched mappings leave `isRubble` undefined (falsy); here it is
`false`. -/
structure RebuildTarget where
  x : ℚ
  y : ℚ
  z : ℚ
  material : VoxelMaterial
  delay : ℚ
  isRubble : Bool
deriving DecidableEq, Repr

/-- `CONFIG.MAX_VOXELS`. -/
def MAX_VOXELS : Nat := 1500

/-- `CONFIG.FLOOR_Y`. -/
def FLOOR_Y : ℚ := -12

/-- `CONFIG.GRAVITY` (0.025). -/
def GRAVITY : ℚ := 1 / 40

/-- `CONFIG.DAMPING` (0.9). -/
def DAMPING : ℚ := 9 / 10

/-- `CONFIG.MORPH_SPEED` (0.12). -/
def MORPH_SPEED : ℚ := 3 / 25

/-- `maxHistory` (bound on the undo stack depth). -/
def maxHistory : Nat := 50

/-- The engine state: the authoritative voxel list plus history, transition and
editing state (the mutable private fields of class `VoxelEngine` that the
simulation core reads or writes). -/
structure Engine where
  voxels : List SimulationVoxel
  undoStack : List (List VoxelData)
  redoStack : List (List VoxelData)
  rebuildTargets : List RebuildTarget
  rebuildStartTime : ℚ
  state : AppState
  mode : AppMode
  isMirrorMode : Bool
  selectedVoxelIds : List ℚ
deriving DecidableEq, Repr

/-- JS `Math.abs` on rationals (kept kernel-reducible). -/
def qabs (q : ℚ) : ℚ := if q < 0 then -q else q

/-- JS `Math.max` on rationals (kept kernel-reducible). -/
def qmax (a b : ℚ) : ℚ := if a ≤ b then b else a

/-- JS `+v.toFixed(2)`: round a coordinate to 2 decimal places.  (The precise
tie-breaking rule of `toFixed` is immaterial to the theorems below: every value
with denominator dividing 100 is a fixed point of any such rounding.) -/
def round2 (q : ℚ) : ℚ := (⌊q * 100 + 1 / 2⌋ : ℤ) / 100

/-- `getVoxelData()`: project the live voxels to their persisted form. -/
def persist (vs : List SimulationVoxel) : List VoxelData :=
  vs.map fun v => ⟨round2 v.x, round2 v.y, round2 v.z, v.color, some v.material⟩

/-- Build fresh `SimulationVoxel`s from persisted data, ids reassigned to list
indices and physics state zeroed (the `data.map((v, i) => ...)` in
`loadSnapshot` / `loadInitialModel`). -/
def dataToVoxels (d : List VoxelData) : List SimulationVoxel :=
  d.enum.map fun iv =>
    ⟨(iv.1 : ℚ), iv.2.x, iv.2.y, iv.2.z, iv.2.color, iv.2.material.getD .matte,
      0, 0, 0, 0, 0, 0, 0, 0, 0⟩

/-- The composite of persisting and reloading one snapshot entry: coordinates
rounded (again) and the optional material defaulted. -/
def roundEntry (v : VoxelData) : VoxelData :=
  ⟨round2 v.x, round2 v.y, round2 v.z, v.color, some (v.material.getD .matte)⟩

/-- `pushHistory()`: snapshot the current field onto the undo stack (evicting
the oldest entry past `maxHistory`) and clear the redo stack. -/
def pushHistory (e : Engine) : Engine :=
  { e with undoStack := (persist e.voxels :: e.undoStack).take maxHistory,
           redoStack := [] }

/-- `loadSnapshot(data)`: replace the field from a snapshot and force `STABLE`. -/
def loadSnapshot (d : List VoxelData) (e : Engine) : Engine :=
  { e with voxels := dataToVoxels d, state := .stable }

/-- `undo()`. -/
def undo (e : Engine) : Engine :=
  match e.undoStack with
  | [] => e
  | d :: rest =>
      loadSnapshot d
        { e with redoStack := persist e.voxels :: e.redoStack, undoStack := rest }

/-- `redo()`. -/
def redo (e : Engine) : Engine :=
  match e.redoStack with
  | [] => e
  | d :: rest =>
      loadSnapshot d
        { e with undoStack := persist e.voxels :: e.undoStack, redoStack := rest }

/-- Occupancy test `this.voxels.some(v => v.x === x && v.y === y && v.z === z)`. -/
def occupied (vs : List SimulationVoxel) (x y z : ℚ) : Prop :=
  ∃ v ∈ vs, v.x = x ∧ v.y = y ∧ v.z = z

instance (vs : List SimulationVoxel) (x y z : ℚ) : Decidable (occupied vs x y z) :=
  inferInstanceAs (Decidable (∃ v ∈ vs, _ ∧ _ ∧ _))

/-- A freshly placed voxel with zero physics state. -/
def mkVoxel (fid x y z : ℚ) (color : Nat) (material : VoxelMaterial) : SimulationVoxel :=
  ⟨fid, x, y, z, color, material, 0, 0, 0, 0, 0, 0, 0, 0, 0⟩

/-- The inner `addOne` closure of `addVoxel`: append the voxel unless its cell
is occupied. -/
def addOne (color : Nat) (material : VoxelMaterial) (fid x y z : ℚ)
    (vs : List SimulationVoxel) : List SimulationVoxel :=
  if occupied vs x y z then vs else vs ++ [mkVoxel fid x y z color material]

/-- `addVoxel(x, y, z, color, material)` (the `place` operation): rejected when
the field is at capacity or the primary cell is occupied; otherwise pushes a
history snapshot, adds the voxel and, in mirror mode, the mirrored voxel at
`(-x, y, z)` (each `addOne` re-checks occupancy).  `fid1`/`fid2` stand for the
fresh ids `Date.now() + Math.random()`. -/
def addVoxel (fid1 fid2 x y z : ℚ) (color : Nat) (material : VoxelMaterial)
    (e : Engine) : Engine :=
  if MAX_VOXELS ≤ e.voxels.length then e
  else if occupied e.voxels x y z then e
  else
    let e1 := pushHistory e
    let vs1 := addOne color material fid1 x y z e.voxels
    let vs2 := if e.isMirrorMode then addOne color material fid2 (-x) y z vs1 else vs1
    { e1 with voxels := vs2 }

/-- One voxel's update in a `DISMANTLING` physics tick: gravity, explicit Euler
integration of position and rotation, then floor clamp with bounce
(`vy *= -0.55`) and horizontal damping. -/
def dismantleStep (v : SimulationVoxel) : SimulationVoxel :=
  let vy1 := v.vy - GRAVITY
  let v2 : SimulationVoxel :=
    { v with vy := vy1,
             x := v.x + v.vx, y := v.y + vy1, z := v.z + v.vz,
             rx := v.rx + v.rvx, ry := v.ry + v.rvy, rz := v.rz + v.rvz }
  if v2.y < FLOOR_Y + 1 / 2 then
    { v2 with y := FLOOR_Y + 1 / 2, vy := v2.vy * (-(11 / 20)),
              vx := v2.vx * DAMPING, vz := v2.vz * DAMPING }
  else v2

/-- One voxel's update in a `REBUILDING` physics tick, together with its
contribution to the `allDone` flag (`true` = does not block completion).
`t?` is `this.rebuildTargets[i]` (`none` when out of range / null). -/
def rebuildStep (elapsed : ℚ) (v : SimulationVoxel) (t? : Option RebuildTarget) :
    SimulationVoxel × Bool :=
  match t? with
  | none => (v, true)
  | some t =>
      if t.isRubble then
        let vy1 := v.vy - GRAVITY
        let y1 := v.y + vy1
        (if y1 < FLOOR_Y + 1 / 2 then
            { v with y := FLOOR_Y + 1 / 2, vy := 0 }
          else { v with y := y1, vy := vy1 }, true)
      else if elapsed < t.delay then (v, false)
      else
        let v1 : SimulationVoxel :=
          { v with x := v.x + (t.x - v.x) * MORPH_SPEED,
                   y := v.y + (t.y - v.y) * MORPH_SPEED,
                   z := v.z + (t.z - v.z) * MORPH_SPEED }
        if 1 / 50 < qabs (t.x - v1.x) + qabs (t.y - v1.y) + qabs (t.z - v1.z) then (v1, false)
        else ({ v1 with x := t.x, y := t.y, z := t.z, rx := 0, ry := 0, rz := 0 }, true)

/-- The `voxels.forEach((v, i) => ...)` of the `REBUILDING` branch: walk the
voxel list in parallel with the target list (`rebuildTargets[i]` is `none`
past the end of the target list). -/
def stepAll (elapsed : ℚ) :
    List SimulationVoxel → List RebuildTarget → List (SimulationVoxel × Bool)
  | [], _ => []
  | v :: vs, [] => rebuildStep elapsed v none :: stepAll elapsed vs []
  | v :: vs, t :: ts => rebuildStep elapsed v (some t) :: stepAll elapsed vs ts

/-- `updatePhysics()` at wall-clock time `now`: the per-tick integrator.
In `REBUILDING`, when every stepped voxel reports done, the state flips to
`STABLE` (this variant keeps rubble voxels in the field). -/
def updatePhysics (now : ℚ) (e : Engine) : Engine :=
  match e.state with
  | .stable => e
  | .dismantling => { e with voxels := e.voxels.map dismantleStep }
  | .rebuilding =>
      let stepped := stepAll (now - e.rebuildStartTime) e.voxels e.rebuildTargets
      let voxels' := stepped.map Prod.fst
      if stepped.all Prod.snd then { e with voxels := voxels', state := .stable }
      else { e with voxels := voxels' }

/-- `removeVoxel(instanceId, materialType)` (the `erase` operation).  Note the
source pushes the history snapshot before checking that the instance id
resolves to a voxel.  In mirror mode the voxel at the mirrored cell is removed
as well. -/
def removeVoxel (instanceId : Nat) (mat : VoxelMaterial) (e : Engine) : Engine :=
  let e1 := pushHistory e
  match (e.voxels.filter fun v => decide (v.material = mat)).get? instanceId with
  | none => e1
  | some target =>
      let vs1 := e.voxels.eraseP fun v =>
        decide (v.x = target.x ∧ v.y = target.y ∧ v.z = target.z)
      let vs2 :=
        if e.isMirrorMode then
          vs1.eraseP fun v =>
            decide (v.x = -target.x ∧ v.y = target.y ∧ v.z = target.z)
        else vs1
      { e1 with voxels := vs2 }

/-- `deleteSelected()`: drop every selected voxel and clear the selection. -/
def deleteSelected (e : Engine) : Engine :=
  if e.selectedVoxelIds = [] then e
  else
    let e1 := pushHistory e
    { e1 with voxels := e.voxels.filter fun v => decide (v.id ∉ e.selectedVoxelIds),
              selectedVoxelIds := [] }

/-- `copySelected()`: clone every selected voxel with a fresh id (`ids` oracle)
and a `+1` x-offset, appending the clones to the field.  The source performs no
capacity check here. -/
def copySelected (ids : Nat → ℚ) (e : Engine) : Engine :=
  if e.selectedVoxelIds = [] then e
  else
    let e1 := pushHistory e
    let selected := e.voxels.filter fun v => decide (v.id ∈ e.selectedVoxelIds)
    let copies := selected.enum.map fun kv => { kv.2 with id := ids kv.1, x := kv.2.x + 1 }
    { e1 with voxels := e.voxels ++ copies }

/-- The three coordinate axes of `moveSelected`. -/
inductive Axis where
  | x
  | y
  | z
deriving DecidableEq, Repr

/-- Shift one coordinate of a voxel (`v[axis] += dir`). -/
def shiftAxis (a : Axis) (dir : ℚ) (v : SimulationVoxel) : SimulationVoxel :=
  match a with
  | .x => { v with x := v.x + dir }
  | .y => { v with y := v.y + dir }
  | .z => { v with z := v.z + dir }

/-- `moveSelected(axis, dir)`. -/
def moveSelected (a : Axis) (dir : ℚ) (e : Engine) : Engine :=
  if e.selectedVoxelIds = [] then e
  else
    let e1 := pushHistory e
    { e1 with voxels := e.voxels.map fun v =>
        if v.id ∈ e.selectedVoxelIds then shiftAxis a dir v else v }

/-! ### Paint bucket (`paintFill`) -/

/-- A grid position (the `x,y,z` map key of `paintFill`). -/
abbrev Pos := ℚ × ℚ × ℚ

/-- Position of a live voxel. -/
def posOf (v : SimulationVoxel) : Pos := (v.x, v.y, v.z)

/-- Spatial lookup (`voxelMap.get`); positions never change during the fill, so
looking up in the current field agrees with the map built from the original
field. -/
def lookupAt (vs : List SimulationVoxel) (p : Pos) : Option SimulationVoxel :=
  vs.find? fun v => decide (posOf v = p)

/-- The six 6-connected neighbor cells. -/
def neighbors (p : Pos) : List Pos :=
  [(p.1 + 1, p.2.1, p.2.2), (p.1 - 1, p.2.1, p.2.2),
   (p.1, p.2.1 + 1, p.2.2), (p.1, p.2.1 - 1, p.2.2),
   (p.1, p.2.1, p.2.2 + 1), (p.1, p.2.1, p.2.2 - 1)]

/-- Repaint the voxel at position `p` (`v.color.setHex(fillHex); v.material =
fillMat` on the aliased map entry). -/
def repaintAt (c : Nat) (m : VoxelMaterial) (p : Pos)
    (vs : List SimulationVoxel) : List SimulationVoxel :=
  vs.map fun v => if posOf v = p then { v with color := c, material := m } else v

/-- The BFS worklist state of `paintFill`: pending queue, visited-key set and
the (partially repainted) field. -/
structure FillState where
  queue : List Pos
  visited : List Pos
  field : List SimulationVoxel
deriving Repr

/-- One iteration of the `while (queue.length > 0)` loop body: pop a position;
if it holds a voxel still carrying the original `(color, material)` pair,
repaint it and enqueue its existing, unvisited neighbors (the six neighbor
cells are pairwise distinct, so the source's one-at-a-time visited updates
coincide with this batch update). -/
def fillStep (tc : Nat) (tm : VoxelMaterial) (fc : Nat) (fm : VoxelMaterial)
    (s : FillState) : FillState :=
  match s.queue with
  | [] => s
  | p :: rest =>
      match lookupAt s.field p with
      | none => ⟨rest, s.visited, s.field⟩
      | some v =>
          if v.color = tc ∧ v.material = tm then
            let ns := (neighbors p).filter fun n =>
              decide (n ∉ s.visited) && (lookupAt s.field n).isSome
            ⟨rest ++ ns, s.visited ++ ns, repaintAt fc fm p s.field⟩
          else ⟨rest, s.visited, s.field⟩

/-- Run the BFS loop for at most `fuel` iterations (the loop in the source
terminates; `paintFill` supplies fuel exceeding the worklist measure). -/
def bfsRun (tc : Nat) (tm : VoxelMaterial) (fc : Nat) (fm : VoxelMaterial) :
    Nat → FillState → FillState
  | 0, s => s
  | n + 1, s =>
      match s.queue with
      | [] => s
      | _ => bfsRun tc tm fc fm n (fillStep tc tm fc fm s)

/-- `paintFill(startX, startY, startZ, fillHex, fillMat)`: flood fill from the
start cell over the 6-connected region sharing the start voxel's exact
`(color, material)` pair.  No-op (in particular: no history push) when there is
no start voxel or it already carries the fill pair. -/
def paintFill (sx sy sz : ℚ) (fc : Nat) (fm : VoxelMaterial) (e : Engine) : Engine :=
  match e.voxels.find? (fun v => decide (v.x = sx ∧ v.y = sy ∧ v.z = sz)) with
  | none => e
  | some sv =>
      if sv.color = fc ∧ sv.material = fm then e
      else
        let e1 := pushHistory e
        let s0 : FillState := ⟨[(sx, sy, sz)], [(sx, sy, sz)], e.voxels⟩
        let final := bfsRun sv.color sv.material fc fm (2 * e.voxels.length + 1) s0
        { e1 with voxels := final.field }

/-- Whether the cell `p` holds a voxel carrying the pair `(tc, tm)` in the
field `vs`. -/
def matchesB (vs : List SimulationVoxel) (tc : Nat) (tm : VoxelMaterial)
    (p : Pos) : Bool :=
  (lookupAt vs p).elim false fun v => decide (v.color = tc ∧ v.material = tm)

/-- 6-connected reachability from `start` through cells holding the original
`(tc, tm)` pair: every step leaves a cell whose voxel carries the pair. -/
inductive Region (vs : List SimulationVoxel) (tc : Nat) (tm : VoxelMaterial)
    (start : Pos) : Pos → Prop
  | base : Region vs tc tm start start
  | step (q r : Pos) : Region vs tc tm start q → matchesB vs tc tm q = true →
      r ∈ neighbors q → Region vs tc tm start r

/-- Repaint every voxel whose position satisfies `painted`. -/
def paintApply (fc : Nat) (fm : VoxelMaterial) (painted : Pos → Bool)
    (F0 : List SimulationVoxel) : List SimulationVoxel :=
  F0.map fun v =>
    if painted (posOf v) then { v with color := fc, material := fm } else v

/-- The BFS loop invariant of `paintFill` relative to the original field `F0`:
the start is visited, the queue is duplicate-free and visited, every visited
cell is reachable, the field is the original with exactly the processed
(visited, dequeued) matching cells repainted, and every processed matching
cell has already pushed all its occupied neighbors into the visited set. -/
def FillInv (F0 : List SimulationVoxel) (tc : Nat) (tm : VoxelMaterial)
    (fc : Nat) (fm : VoxelMaterial) (start : Pos) (s : FillState) : Prop :=
  start ∈ s.visited ∧ s.queue.Nodup ∧
  (∀ p ∈ s.queue, p ∈ s.visited) ∧
  (∀ p ∈ s.visited, Region F0 tc tm start p) ∧
  s.field = paintApply fc fm
    (fun p => decide (p ∈ s.visited) && !decide (p ∈ s.queue) &&
      matchesB F0 tc tm p) F0 ∧
  (∀ p ∈ s.visited, p ∉ s.queue → matchesB F0 tc tm p = true →
    ∀ n ∈ neighbors p, (lookupAt F0 n).isSome = true → n ∈ s.visited)

/-- The worklist measure of the BFS loop: unvisited occupied cells count twice,
pending queue entries once. -/
def fillMeasure (F0 : List SimulationVoxel) (s : FillState) : Nat :=
  2 * ((F0.map posOf).toFinset \ s.visited.toFinset).card + s.queue.length

/-! ### Rebuild: cloning, assignment solver, state change -/

/-- Red channel of a `0xRRGGBB` color, normalized to `[0, 1]`
(`THREE.Color.r`). -/
def chanR (c : Nat) : ℚ := ((c / 65536) % 256 : Nat) / 255

/-- Green channel, normalized. -/
def chanG (c : Nat) : ℚ := ((c / 256) % 256 : Nat) / 255

/-- Blue channel, normalized. -/
def chanB (c : Nat) : ℚ := (c % 256 : Nat) / 255

/-- Squared Euclidean color distance in normalized RGB space (the radicand of
`getColorDistance`). -/
def colorDistSq (c1 c2 : Nat) : ℚ :=
  (chanR c1 - chanR c2) ^ 2 + (chanG c1 - chanG c2) ^ 2 + (chanB c1 - chanB c2) ^ 2

/-- An exact representation of the solver score
`Math.sqrt(colorDistSq) + (materials match ? 0 : 0.4)`: the squared color
distance plus the material-mismatch flag.  The real value it denotes is
`Real.sqrt d2 + (if mismatch then 2/5 else 0)`. -/
structure Score where
  d2 : ℚ
  mismatch : Bool
deriving DecidableEq, Repr

/-- Exact decision procedure for `<` between two represented scores
(for nonnegative `d2` fields); see `Score.ltB_iff_real` below for its
soundness against the real-valued comparison the source performs. -/
def Score.ltB (s1 s2 : Score) : Bool :=
  match s1.mismatch, s2.mismatch with
  | false, false => decide (s1.d2 < s2.d2)
  | true, true => decide (s1.d2 < s2.d2)
  | false, true =>
      decide (s1.d2 - s2.d2 - 4 / 25 < 0 ∨
        (s1.d2 - s2.d2 - 4 / 25 = 0 ∧ 0 < s2.d2) ∨
        (0 < s1.d2 - s2.d2 - 4 / 25 ∧
          (s1.d2 - s2.d2 - 4 / 25) ^ 2 < 16 / 25 * s2.d2))
  | true, false =>
      decide (0 < s2.d2 - s1.d2 - 4 / 25 ∧
        16 / 25 * s1.d2 < (s2.d2 - s1.d2 - 4 / 25) ^ 2)

/-- An entry of the solver's `available` array: source index, persisted color,
material and assignment flag. -/
structure Avail where
  index : Nat
  color : Nat
  mat : VoxelMaterial
  taken : Bool
deriving DecidableEq, Repr

/-- `this.voxels.map((v, i) => ({index: i, color: v.color, mat: v.material,
taken: false}))`. -/
def mkAvail (src : List SimulationVoxel) : List Avail :=
  src.enum.map fun iv => ⟨iv.1, iv.2.color, iv.2.material, false⟩

/-- The score of a candidate source against a target voxel.  The source
compares `available[i].mat === target.material` where `target.material` may be
absent, so the mismatch flag compares against the optional material. -/
def mkScore (c : Nat) (m : VoxelMaterial) (t : VoxelData) : Score :=
  ⟨colorDistSq c t.color, decide (¬t.material = some m)⟩

/-- The inner `for` loop of the solver: scan the `available` entries starting
at position `k`, keeping the best (score, index) seen so far; only a strictly
smaller score replaces the incumbent.  The initial incumbent `none` stands for
the source's `bestScore = 9999` sentinel, which every actual score beats
(scores are at most `sqrt 3 + 2/5`). -/
def pickBestAux (t : VoxelData) : Nat → List Avail → Option (Score × Nat) →
    Option (Score × Nat)
  | _, [], best => best
  | k, a :: rest, best =>
      if a.taken then pickBestAux t (k + 1) rest best
      else
        match best with
        | none => pickBestAux t (k + 1) rest (some (mkScore a.color a.mat t, k))
        | some b =>
            if Score.ltB (mkScore a.color a.mat t) b.1 then
              pickBestAux t (k + 1) rest (some (mkScore a.color a.mat t, k))
            else pickBestAux t (k + 1) rest (some b)

/-- Find the best unassigned source for one target voxel. -/
def pickBest (t : VoxelData) (avail : List Avail) : Option (Score × Nat) :=
  pickBestAux t 0 avail none

/-- The mapping produced for a matched target: its coordinates, its material
(defaulting to Matte) and the height-based start delay
`max(0, (y - FLOOR_Y) / 15) * 600`. -/
def matchedTarget (t : VoxelData) : RebuildTarget :=
  ⟨t.x, t.y, t.z, t.material.getD .matte, qmax 0 ((t.y - FLOOR_Y) / 15) * 600, false⟩

/-- The rubble mapping for a surplus source voxel: stay in place, free-fall. -/
def rubbleOf (v : SimulationVoxel) : RebuildTarget :=
  ⟨v.x, v.y, v.z, v.material, 0, true⟩

/-- One iteration of the solver's `targetVoxels.forEach`: pick the best
unassigned source, mark it taken and record its mapping. -/
def assignStep (st : List Avail × List (Option RebuildTarget)) (t : VoxelData) :
    List Avail × List (Option RebuildTarget) :=
  match pickBest t st.1 with
  | none => st
  | some si =>
      match st.1.get? si.2 with
      | none => st
      | some a =>
          (st.1.set si.2 { a with taken := true },
           st.2.set a.index (some (matchedTarget t)))

/-- The full assignment solver: greedily match every target, then fill the
unassigned source slots with rubble mappings. -/
def solve (src : List SimulationVoxel) (targets : List VoxelData) :
    List RebuildTarget :=
  let res := targets.foldl assignStep
    (mkAvail src, List.replicate src.length (none : Option RebuildTarget))
  (res.2.zip src).map fun om => om.1.getD (rubbleOf om.2)

/-- The placeholder source voxel synthesized when rebuilding from an empty
field: white, Matte, above the floor at `y = FLOOR_Y + 5`. -/
def placeholderVoxel : SimulationVoxel :=
  ⟨-1, 0, FLOOR_Y + 5, 0, 16777215, .matte, 0, 0, 0, 0, 0, 0, 0, 0, 0⟩

/-- The `while (sourceVoxels.length < targetVoxels.length)` cloning loop,
run for `n` iterations: each appends a clone (fresh id from the `ids` oracle)
of the source voxel at the random index `oracle k % length`. -/
def cloneLoop (oracle : Nat → Nat) (ids : Nat → ℚ) :
    Nat → Nat → List SimulationVoxel → List SimulationVoxel
  | _, 0, src => src
  | k, n + 1, src =>
      match src with
      | [] => []
      | v0 :: _ =>
          cloneLoop oracle ids (k + 1) n
            (src ++ [{ src.getD (oracle k % src.length) v0 with id := ids k }])

/-- `rebuild(targetModel)`: guard, history push, placeholder synthesis for an
empty field, cloning up to the target count, greedy assignment, and transition
to `REBUILDING` at start time `now`. -/
def rebuild (oracle : Nat → Nat) (ids : Nat → ℚ) (now : ℚ)
    (targetModel : List VoxelData) (e : Engine) : Engine :=
  if e.state = .rebuilding ∨ e.mode = .build then e
  else
    let e1 := pushHistory e
    let src1 := if e.voxels.isEmpty then [placeholderVoxel] else e.voxels
    let src := cloneLoop oracle ids 0 (targetModel.length - src1.length) src1
    { e1 with voxels := src, rebuildTargets := solve src targetModel,
              rebuildStartTime := now, state := .rebuilding }

/-! ### Operation words for the sequence claims -/

/-- Editing operations for the placement-sequence claims: a `place` (with its
two fresh-id oracles) or a mirror-mode toggle. -/
inductive EditOp where
  | place (fid1 fid2 x y z : ℚ) (color : Nat) (material : VoxelMaterial)
  | setMirror (b : Bool)

/-- Apply one editing operation. -/
def applyEdit (e : Engine) (op : EditOp) : Engine :=
  match op with
  | .place f1 f2 x y z c m => addVoxel f1 f2 x y z c m e
  | .setMirror b => { e with isMirrorMode := b }

/-- Apply a sequence of editing operations. -/
def applyEdits (e : Engine) (ops : List EditOp) : Engine :=
  ops.foldl applyEdit e

/-- An `EditOp` that never switches mirror mode on. -/
def EditOp.noMirrorOn : EditOp → Prop
  | .setMirror true => False
  | _ => True

/-- The mutating operations of the engine (each pushes a history snapshot
before changing the field). -/
inductive MutOp where
  | place (fid1 fid2 x y z : ℚ) (color : Nat) (material : VoxelMaterial)
  | erase (instanceId : Nat) (mat : VoxelMaterial)
  | fill (sx sy sz : ℚ) (color : Nat) (material : VoxelMaterial)
  | delSel
  | copySel (ids : Nat → ℚ)
  | moveSel (a : Axis) (dir : ℚ)
  | rebuildOp (oracle : Nat → Nat) (ids : Nat → ℚ) (now : ℚ) (target : List VoxelData)

/-- Apply one mutating operation. -/
def applyMut (op : MutOp) (e : Engine) : Engine :=
  match op with
  | .place f1 f2 x y z c m => addVoxel f1 f2 x y z c m e
  | .erase iid mat => removeVoxel iid mat e
  | .fill sx sy sz c m => paintFill sx sy sz c m e
  | .delSel => deleteSelected e
  | .copySel ids => copySelected ids e
  | .moveSel a dir => moveSelected a dir e
  | .rebuildOp oracle ids now target => rebuild oracle ids now target e

/-- The operation is actually performed (not silently rejected / a no-op):
the guard under which the source reaches its mutation path. -/
def Accepted : MutOp → Engine → Prop
  | .place _ _ x y z _ _, e =>
      e.voxels.length < MAX_VOXELS ∧ ¬occupied e.voxels x y z
  | .erase iid mat, e =>
      ((e.voxels.filter fun v => decide (v.material = mat)).get? iid).isSome
  | .fill sx sy sz c m, e =>
      ∃ sv, e.voxels.find? (fun v => decide (v.x = sx ∧ v.y = sy ∧ v.z = sz)) = some sv ∧
        ¬(sv.color = c ∧ sv.material = m)
  | .delSel, e => e.selectedVoxelIds ≠ []
  | .copySel _, e => e.selectedVoxelIds ≠ []
  | .moveSel _ _, e => e.selectedVoxelIds ≠ []
  | .rebuildOp _ _ _ _, e => ¬(e.state = .rebuilding ∨ e.mode = .build)

/-- Bookkeeping invariant of the assignment solver after `n` targets have been
processed: accumulator lengths, `available[i].index = i`, exactly `n` sources
taken, exactly `n` mappings filled, taken flags and filled mappings in step,
and every filled mapping non-rubble. -/
def SolveInv (len n : Nat) (st : List Avail × List (Option RebuildTarget)) : Prop :=
  st.1.length = len ∧ st.2.length = len ∧
  (∀ (i : Nat) (a : Avail), st.1.get? i = some a → a.index = i) ∧
  st.1.countP (fun a => a.taken) = n ∧
  st.2.countP (fun o => o.isSome) = n ∧
  (∀ i : Nat, (st.1.get? i).map Avail.taken = (st.2.get? i).map Option.isSome) ∧
  (∀ (i : Nat) (rt : RebuildTarget), st.2.get? i = some (some rt) → rt.isRubble = false)

/-- Pairwise-distinct positions: no two voxels share `(x, y, z)`. -/
def NodupPos (vs : List SimulationVoxel) : Prop :=
  vs.Pairwise fun a b => ¬(a.x = b.x ∧ a.y = b.y ∧ a.z = b.z)

instance (vs : List SimulationVoxel) : Decidable (NodupPos vs) :=
  inferInstanceAs (Decidable (vs.Pairwise _))

/-! ### Concrete instances used by counterexamples and witnesses -/

/-- A matched voxel already sitting at its rebuild target. -/
def exMatchedVoxel : SimulationVoxel := ⟨0, 5, -11, 0, 255, .matte, 0, 0, 0, 0, 0, 0, 0, 0, 0⟩

/-- A rubble voxel still high above the floor, at rest for the moment. -/
def exRubbleVoxel : SimulationVoxel := ⟨1, 0, 0, 0, 255, .matte, 0, 0, 0, 0, 0, 0, 0, 0, 0⟩

/-- The matched voxel's rebuild target (where it already is, zero delay). -/
def exMatchedTarget : RebuildTarget := ⟨5, -11, 0, .matte, 0, false⟩

/-- The rubble tag for the second voxel. -/
def exRubbleTarget : RebuildTarget := ⟨0, 0, 0, .matte, 0, true⟩

/-- A `REBUILDING` engine whose matched voxel has arrived but whose rubble
voxel is still far above the floor. -/
def exEngineC1 : Engine :=
  ⟨[exMatchedVoxel, exRubbleVoxel], [], [], [exMatchedTarget, exRubbleTarget],
    0, .rebuilding, .view, false, []⟩

/-- A row of `n` voxels at positions `(i + 2, 0, 0)` (ids `i`). -/
def bigRow (n : Nat) : List SimulationVoxel :=
  (List.range n).map fun i : Nat => mkVoxel (i : ℚ) ((i : ℚ) + 2) 0 0 0 .matte

/-- A build-mode engine one voxel below capacity with mirror mode on. -/
def exEngineC2 : Engine := ⟨bigRow 1499, [], [], [], 0, .stable, .build, true, []⟩

/-- A build-mode engine exactly at capacity with one voxel selected. -/
def exEngineC8 : Engine := ⟨bigRow 1500, [], [], [], 0, .stable, .build, false, [0]⟩

/-- An empty idle engine. -/
def exEngineEmpty : Engine := ⟨[], [], [], [], 0, .stable, .view, false, []⟩

/-- An idle one-voxel engine for exercising the rebuild solver. -/
def exEngineC5 : Engine :=
  ⟨[exMatchedVoxel], [], [], [], 0, .stable, .view, false, []⟩

/-- A two-voxel target model (forcing one cloning step from a single source). -/
def exTargetsC5 : List VoxelData :=
  [⟨0, 0, 0, 255, some .matte⟩, ⟨1, 0, 0, 0, none⟩]

/-- A blue Matte target voxel for the single solver step. -/
def exTargetC6 : VoxelData := ⟨0, 0, 0, 255, some .matte⟩

/-- Two unassigned sources: a black one and a blue one (the exact match). -/
def exAvailC6 : List Avail := [⟨0, 0, .matte, false⟩, ⟨1, 255, .matte, false⟩]

/-- An empty two-slot mapping list. -/
def exMapsC6 : List (Option RebuildTarget) := [none, none]

/-- The start voxel of the fill example: color 10 at the origin. -/
def exVoxC7A : SimulationVoxel := ⟨0, 0, 0, 0, 10, .matte, 0, 0, 0, 0, 0, 0, 0, 0, 0⟩

/-- Its same-colored neighbor one step along `x`. -/
def exVoxC7B : SimulationVoxel := ⟨1, 1, 0, 0, 10, .matte, 0, 0, 0, 0, 0, 0, 0, 0, 0⟩

/-- A differently colored voxel one further step along `x`. -/
def exVoxC7C : SimulationVoxel := ⟨2, 2, 0, 0, 20, .matte, 0, 0, 0, 0, 0, 0, 0, 0, 0⟩

/-- A three-voxel row field for the paint-bucket example. -/
def exEngineC7 : Engine :=
  ⟨[exVoxC7A, exVoxC7B, exVoxC7C], [], [], [], 0, .stable, .view, false, []⟩

end VoxelToy

/-! ## Theorems -/

namespace VoxelToy

/-- After a `DISMANTLING` update, a voxel is never below the ground contact
height `FLOOR_Y + 0.5`. -/
theorem dismantleStep_floor (v : SimulationVoxel) :
    FLOOR_Y + 1 / 2 ≤ (dismantleStep v).y := by
  simp only [dismantleStep]
  split
  · rfl
  · next h => exact le_of_not_lt h

/-- After a `REBUILDING` update, a rubble voxel is never below the ground
contact height. -/
theorem rebuildStep_rubble_floor (el : ℚ) (v : SimulationVoxel) (t : RebuildTarget)
    (ht : t.isRubble = true) : FLOOR_Y + 1 / 2 ≤ ((rebuildStep el v (some t)).1).y := by
  simp only [rebuildStep, ht, if_true]
  split
  · rfl
  · next h => exact le_of_not_lt h

/-- Indexing into `stepAll`. -/
theorem stepAll_getElem? (el : ℚ) :
    ∀ (vs : List SimulationVoxel) (ts : List RebuildTarget) (i : Nat),
      (stepAll el vs ts)[i]? = vs[i]?.map fun v => rebuildStep el v ts[i]?
  | [], _, _ => by simp [stepAll]
  | v :: vs, [], 0 => by simp [stepAll]
  | v :: vs, [], i + 1 => by
      simpa [stepAll] using stepAll_getElem? el vs [] i
  | v :: vs, t :: ts, 0 => by simp [stepAll]
  | v :: vs, t :: ts, i + 1 => by
      simpa [stepAll] using stepAll_getElem? el vs ts i

/-- The voxel list after a `REBUILDING` tick. -/
theorem updatePhysics_rebuilding_voxels (now : ℚ) (e : Engine)
    (h : e.state = .rebuilding) :
    (updatePhysics now e).voxels =
      (stepAll (now - e.rebuildStartTime) e.voxels e.rebuildTargets).map Prod.fst := by
  simp only [updatePhysics, h]
  split <;> rfl

/-- If a `REBUILDING` tick ends in `STABLE`, every stepped voxel reported done. -/
theorem updatePhysics_rebuilding_all_done (now : ℚ) (e : Engine)
    (h : e.state = .rebuilding) (hs : (updatePhysics now e).state = .stable) :
    (stepAll (now - e.rebuildStartTime) e.voxels e.rebuildTargets).all Prod.snd = true := by
  by_contra hall
  simp only [updatePhysics, h] at hs
  rw [if_neg hall] at hs
  have hs2 : AppState.rebuilding = AppState.stable := hs
  exact AppState.noConfusion hs2

/-- A matched (non-rubble) voxel that reports done has snapped exactly onto its
target and is past its delay. -/
theorem rebuildStep_matched_done (el : ℚ) (v : SimulationVoxel) (t : RebuildTarget)
    (ht : t.isRubble = false) (hd : (rebuildStep el v (some t)).2 = true) :
    (rebuildStep el v (some t)).1.x = t.x ∧ (rebuildStep el v (some t)).1.y = t.y ∧
      (rebuildStep el v (some t)).1.z = t.z ∧ t.delay ≤ el := by
  simp only [rebuildStep, ht, Bool.false_eq_true, if_false] at hd ⊢
  split at hd
  · exact absurd hd (by simp)
  · next hdelay =>
      split at hd
      · exact absurd hd (by simp)
      · next harr =>
          rw [if_neg hdelay, if_neg harr]
          exact ⟨rfl, rfl, rfl, le_of_not_lt hdelay⟩

/-- C10: after every physics tick in state `DISMANTLING` every voxel satisfies
`y ≥ FLOOR_Y + 0.5`, and after every tick in state `REBUILDING` every
rubble-tagged voxel satisfies `y ≥ FLOOR_Y + 0.5`; positions that would cross
the floor plane are clamped to exactly `FLOOR_Y + 0.5` within the same tick. -/
theorem physics_floor_invariant (now : ℚ) (e : Engine) :
    (e.state = .dismantling →
      ∀ v ∈ (updatePhysics now e).voxels, FLOOR_Y + 1 / 2 ≤ v.y) ∧
    (e.state = .rebuilding →
      ∀ (i : Nat) (v : SimulationVoxel) (t : RebuildTarget),
        (updatePhysics now e).voxels[i]? = some v →
        e.rebuildTargets[i]? = some t → t.isRubble = true →
        FLOOR_Y + 1 / 2 ≤ v.y) := by
  constructor
  · intro h v hv
    simp only [updatePhysics, h] at hv
    obtain ⟨w, _, rfl⟩ := List.mem_map.mp hv
    exact dismantleStep_floor w
  · intro h i v t hv ht hrub
    rw [updatePhysics_rebuilding_voxels now e h, List.getElem?_map,
      stepAll_getElem?, ht] at hv
    obtain ⟨w, hw, hv1⟩ := Option.map_eq_some'.mp hv
    obtain ⟨u, hu, hg⟩ := Option.map_eq_some'.mp hw
    subst hv1
    subst hg
    exact rebuildStep_rubble_floor _ u t hrub

/-- C10 witness. -/
theorem physics_floor_invariant_witness :
    exEngineC1.state = .rebuilding ∧
    (∀ (i : Nat) (v : SimulationVoxel) (t : RebuildTarget),
      (updatePhysics 0 exEngineC1).voxels[i]? = some v →
      exEngineC1.rebuildTargets[i]? = some t → t.isRubble = true →
      FLOOR_Y + 1 / 2 ≤ v.y) :=
  ⟨by decide, (physics_floor_invariant 0 exEngineC1).2 (by decide)⟩

/-- C1 counterexample: the completion check of `updatePhysics` ignores rubble
voxels, so a tick can set the state to `STABLE` while a rubble voxel is still
far above the floor and still moving. -/
theorem rebuild_completion_ignores_rubble :
    (updatePhysics 0 exEngineC1).state = .stable ∧
    ((updatePhysics 0 exEngineC1).voxels[1]?.map SimulationVoxel.y = some (-1 / 40)) ∧
    FLOOR_Y + 1 / 2 < -1 / 40 ∧
    ((updatePhysics 0 exEngineC1).voxels[1]?.map SimulationVoxel.vy = some (-1 / 40)) ∧
    (-1 / 40 : ℚ) ≠ 0 := by with_unfolding_all decide

/-- C1 (amended): while `REBUILDING`, a physics tick transitions the state to
`STABLE` only if every matched voxel has arrived — its delay has elapsed and
its position equals its rebuild target exactly (it was snapped there); rubble
voxels do not gate the transition. -/
theorem rebuilding_to_stable_matched_arrived (now : ℚ) (e : Engine)
    (h : e.state = .rebuilding) (hs : (updatePhysics now e).state = .stable) :
    ∀ (i : Nat) (v : SimulationVoxel) (t : RebuildTarget),
      (updatePhysics now e).voxels[i]? = some v →
      e.rebuildTargets[i]? = some t → t.isRubble = false →
      v.x = t.x ∧ v.y = t.y ∧ v.z = t.z ∧ t.delay ≤ now - e.rebuildStartTime := by
  intro i v t hv ht hmat
  have hall := updatePhysics_rebuilding_all_done now e h hs
  rw [updatePhysics_rebuilding_voxels now e h, List.getElem?_map,
    stepAll_getElem?, ht] at hv
  obtain ⟨w, hw, hv1⟩ := Option.map_eq_some'.mp hv
  obtain ⟨u, hu, hg⟩ := Option.map_eq_some'.mp hw
  subst hv1
  subst hg
  have hmem : rebuildStep (now - e.rebuildStartTime) u (some t) ∈
      stepAll (now - e.rebuildStartTime) e.voxels e.rebuildTargets := by
    have hidx := stepAll_getElem? (now - e.rebuildStartTime) e.voxels e.rebuildTargets i
    rw [ht] at hidx
    exact List.getElem?_mem (by rw [hidx, hu]; rfl)
  have hdone : (rebuildStep (now - e.rebuildStartTime) u (some t)).2 = true :=
    List.all_eq_true.mp hall _ hmem
  exact rebuildStep_matched_done _ u t hmat hdone

/-- A place at (or beyond) capacity is rejected outright. -/
theorem addVoxel_full (fid1 fid2 x y z : ℚ) (c : Nat) (m : VoxelMaterial) (e : Engine)
    (h : MAX_VOXELS ≤ e.voxels.length) : addVoxel fid1 fid2 x y z c m e = e := by
  unfold addVoxel
  rw [if_pos h]

/-- A place whose primary cell is occupied is rejected outright. -/
theorem addVoxel_dup (fid1 fid2 x y z : ℚ) (c : Nat) (m : VoxelMaterial) (e : Engine)
    (h : occupied e.voxels x y z) : addVoxel fid1 fid2 x y z c m e = e := by
  unfold addVoxel
  split
  · rfl
  · rfl

/-- `addOne` appends at most one voxel. -/
theorem addOne_length_le (c : Nat) (m : VoxelMaterial) (fid x y z : ℚ)
    (vs : List SimulationVoxel) : (addOne c m fid x y z vs).length ≤ vs.length + 1 := by
  unfold addOne
  split
  · exact Nat.le_succ _
  · simp

/-- An accepted place grows the field by at most two voxels. -/
theorem addVoxel_length_le (fid1 fid2 x y z : ℚ) (c : Nat) (m : VoxelMaterial)
    (e : Engine) :
    (addVoxel fid1 fid2 x y z c m e).voxels.length ≤ e.voxels.length + 2 := by
  unfold addVoxel
  split
  · omega
  · split
    · omega
    · show (if e.isMirrorMode then _ else _ : List SimulationVoxel).length ≤ _
      split
      · calc (addOne c m fid2 (-x) y z (addOne c m fid1 x y z e.voxels)).length
            ≤ (addOne c m fid1 x y z e.voxels).length + 1 := addOne_length_le ..
          _ ≤ e.voxels.length + 2 := by
              have := addOne_length_le c m fid1 x y z e.voxels
              omega
      · have := addOne_length_le c m fid1 x y z e.voxels
        omega

/-- With mirror mode off, an accepted place grows the field by at most one. -/
theorem addVoxel_length_le_nomirror (fid1 fid2 x y z : ℚ) (c : Nat) (m : VoxelMaterial)
    (e : Engine) (hm : e.isMirrorMode = false) :
    (addVoxel fid1 fid2 x y z c m e).voxels.length ≤ e.voxels.length + 1 := by
  unfold addVoxel
  split
  · omega
  · split
    · omega
    · show (if e.isMirrorMode then _ else _ : List SimulationVoxel).length ≤ _
      rw [hm]
      simpa using addOne_length_le c m fid1 x y z e.voxels

/-- Neither a place nor a mirror toggle changes the mirror flag except the
toggle itself. -/
theorem addVoxel_isMirrorMode (fid1 fid2 x y z : ℚ) (c : Nat) (m : VoxelMaterial)
    (e : Engine) : (addVoxel fid1 fid2 x y z c m e).isMirrorMode = e.isMirrorMode := by
  unfold addVoxel
  split
  · rfl
  · split <;> rfl

/-- C2 (amended): a place issued at or beyond `MAX_VOXELS` leaves the engine
unchanged, and along any sequence of place operations the field size never
exceeds `MAX_VOXELS` as long as mirror mode stays off — but with mirror mode a
single place can add two voxels, so the sharp bound over all sequences is
`MAX_VOXELS + 1`. -/
theorem place_capacity_bounds :
    (∀ (ops : List EditOp) (e0 : Engine), e0.voxels.length ≤ MAX_VOXELS →
      (applyEdits e0 ops).voxels.length ≤ MAX_VOXELS + 1) ∧
    (∀ (ops : List EditOp) (e0 : Engine), e0.voxels.length ≤ MAX_VOXELS →
      e0.isMirrorMode = false → (∀ op ∈ ops, op.noMirrorOn) →
      (applyEdits e0 ops).voxels.length ≤ MAX_VOXELS) ∧
    (∀ (fid1 fid2 x y z : ℚ) (c : Nat) (m : VoxelMaterial) (e : Engine),
      MAX_VOXELS ≤ e.voxels.length → addVoxel fid1 fid2 x y z c m e = e) := by
  refine ⟨?_, ?_, fun fid1 fid2 x y z c m e h => addVoxel_full fid1 fid2 x y z c m e h⟩
  · intro ops
    induction ops with
    | nil => intro e0 h0; simpa [applyEdits] using Nat.le_succ_of_le h0
    | cons op ops ih =>
        intro e0 h0
        show (applyEdits (applyEdit e0 op) ops).voxels.length ≤ MAX_VOXELS + 1
        match op with
        | .setMirror b => exact ih _ h0
        | .place f1 f2 x y z c m =>
            by_cases hcap : MAX_VOXELS ≤ e0.voxels.length
            · rw [show applyEdit e0 (.place f1 f2 x y z c m) =
                addVoxel f1 f2 x y z c m e0 from rfl,
                addVoxel_full f1 f2 x y z c m e0 hcap]
              exact ih _ h0
            · -- below capacity: the result may exceed MAX_VOXELS by one, after
              -- which every further place is rejected; strengthen via a
              -- sub-induction on the tail with the `≤ MAX_VOXELS + 1` invariant
              have hlen : (applyEdit e0 (.place f1 f2 x y z c m)).voxels.length ≤
                  MAX_VOXELS + 1 := by
                have := addVoxel_length_le f1 f2 x y z c m e0
                have hlt : e0.voxels.length < MAX_VOXELS := lt_of_not_le hcap
                show (addVoxel f1 f2 x y z c m e0).voxels.length ≤ MAX_VOXELS + 1
                omega
              clear h0 hcap
              generalize applyEdit e0 (.place f1 f2 x y z c m) = e1 at hlen
              clear ih
              induction ops generalizing e1 with
              | nil => simpa [applyEdits] using hlen
              | cons op2 ops2 ih2 =>
                  show (applyEdits (applyEdit e1 op2) ops2).voxels.length ≤ MAX_VOXELS + 1
                  refine ih2 _ ?_
                  match op2 with
                  | .setMirror b => exact hlen
                  | .place g1 g2 x2 y2 z2 c2 m2 =>
                      by_cases hcap2 : MAX_VOXELS ≤ e1.voxels.length
                      · show (addVoxel g1 g2 x2 y2 z2 c2 m2 e1).voxels.length ≤ _
                        rw [addVoxel_full g1 g2 x2 y2 z2 c2 m2 e1 hcap2]
                        exact hlen
                      · have := addVoxel_length_le g1 g2 x2 y2 z2 c2 m2 e1
                        have hlt : e1.voxels.length < MAX_VOXELS := lt_of_not_le hcap2
                        show (addVoxel g1 g2 x2 y2 z2 c2 m2 e1).voxels.length ≤ _
                        omega
  · intro ops
    induction ops with
    | nil => intro e0 h0 _ _; simpa [applyEdits] using h0
    | cons op ops ih =>
        intro e0 h0 hm hops
        show (applyEdits (applyEdit e0 op) ops).voxels.length ≤ MAX_VOXELS
        have hopsrest : ∀ op2 ∈ ops, op2.noMirrorOn := fun op2 h2 =>
          hops op2 (List.mem_cons_of_mem _ h2)
        match op, hops with
        | .setMirror b, hops =>
            have hb : b = false := by
              have := hops (.setMirror b) (List.mem_cons_self _ _)
              cases b
              · rfl
              · exact absurd this (by simp [EditOp.noMirrorOn])
            subst hb
            exact ih _ h0 rfl hopsrest
        | .place f1 f2 x y z c m, hops =>
            by_cases hcap : MAX_VOXELS ≤ e0.voxels.length
            · rw [show applyEdit e0 (.place f1 f2 x y z c m) =
                addVoxel f1 f2 x y z c m e0 from rfl,
                addVoxel_full f1 f2 x y z c m e0 hcap]
              exact ih _ h0 hm hopsrest
            · refine ih _ ?_ ?_ hopsrest
              · have := addVoxel_length_le_nomirror f1 f2 x y z c m e0 hm
                have hlt : e0.voxels.length < MAX_VOXELS := lt_of_not_le hcap
                show (addVoxel f1 f2 x y z c m e0).voxels.length ≤ _
                omega
              · show (addVoxel f1 f2 x y z c m e0).isMirrorMode = false
                rw [addVoxel_isMirrorMode]
                exact hm

/-- C2 witness. -/
theorem place_capacity_bounds_witness :
    exEngineEmpty.voxels.length ≤ MAX_VOXELS ∧
    (applyEdits exEngineEmpty [.place 1 2 0 0 0 7 .matte]).voxels.length ≤ MAX_VOXELS + 1 :=
  ⟨by decide, place_capacity_bounds.1 [.place 1 2 0 0 0 7 .matte] exEngineEmpty (by decide)⟩

/-- The accepted, mirror-mode shape of a place with both cells free. -/
theorem addVoxel_accepted_mirror (fid1 fid2 x y z : ℚ) (c : Nat) (m : VoxelMaterial)
    (e : Engine) (hcap : ¬MAX_VOXELS ≤ e.voxels.length)
    (hocc : ¬occupied e.voxels x y z) (hm : e.isMirrorMode = true)
    (hocc2 : ¬occupied (e.voxels ++ [mkVoxel fid1 x y z c m]) (-x) y z) :
    (addVoxel fid1 fid2 x y z c m e).voxels =
      e.voxels ++ [mkVoxel fid1 x y z c m] ++ [mkVoxel fid2 (-x) y z c m] := by
  unfold addVoxel addOne
  simp only [if_neg hcap, if_neg hocc, hm, if_neg hocc2, if_true]

/-- The x-coordinates occurring in `bigRow n` are at least 2. -/
theorem bigRow_x_ge_two (n : Nat) (v : SimulationVoxel) (hv : v ∈ bigRow n) :
    (2 : ℚ) ≤ v.x := by
  obtain ⟨i, _, rfl⟩ := List.mem_map.mp hv
  show (2 : ℚ) ≤ (i : ℚ) + 2
  have hnn : (0 : ℚ) ≤ (i : ℚ) := by exact_mod_cast Nat.zero_le i
  linarith

set_option maxRecDepth 40000 in
/-- C2 counterexample: with mirror mode on, a place issued when the field holds
`MAX_VOXELS - 1 = 1499` voxels inserts both the primary and the mirrored voxel,
bringing the field to 1501 > `MAX_VOXELS` voxels. -/
theorem mirrored_place_exceeds_capacity :
    MAX_VOXELS < (addVoxel 5000 5001 1 0 0 0 .matte exEngineC2).voxels.length := by
  have hlen : exEngineC2.voxels.length = 1499 := by
    show (bigRow 1499).length = 1499
    unfold bigRow
    rw [List.length_map, List.length_range]
  have hcap : ¬MAX_VOXELS ≤ exEngineC2.voxels.length := by
    rw [hlen]
    norm_num [MAX_VOXELS]
  have hocc : ¬occupied exEngineC2.voxels 1 0 0 := by
    rintro ⟨v, hv, hx, -, -⟩
    have := bigRow_x_ge_two 1499 v hv
    rw [hx] at this
    norm_num at this
  have hocc2 : ¬occupied (exEngineC2.voxels ++ [mkVoxel 5000 1 0 0 0 .matte])
      (-1) 0 0 := by
    rintro ⟨v, hv, hx, -, -⟩
    rcases List.mem_append.mp hv with hv | hv
    · have := bigRow_x_ge_two 1499 v hv
      rw [hx] at this
      norm_num at this
    · rw [List.mem_singleton.mp hv] at hx
      norm_num [mkVoxel] at hx
  rw [addVoxel_accepted_mirror 5000 5001 1 0 0 0 .matte exEngineC2 hcap hocc rfl hocc2]
  simp only [List.length_append, hlen, List.length_singleton]
  norm_num [MAX_VOXELS]

/-- Appending a voxel into a free cell preserves position-uniqueness. -/
theorem NodupPos_addOne (c : Nat) (m : VoxelMaterial) (fid x y z : ℚ)
    (vs : List SimulationVoxel) (h : NodupPos vs) :
    NodupPos (addOne c m fid x y z vs) := by
  unfold addOne
  split
  · exact h
  · next hocc =>
      refine List.pairwise_append.mpr ⟨h, List.pairwise_singleton _ _, ?_⟩
      intro a ha b hb hab
      rw [List.mem_singleton.mp hb] at hab
      exact hocc ⟨a, ha, hab⟩

/-- A place (with or without mirror) preserves position-uniqueness. -/
theorem NodupPos_addVoxel (fid1 fid2 x y z : ℚ) (c : Nat) (m : VoxelMaterial)
    (e : Engine) (h : NodupPos e.voxels) :
    NodupPos (addVoxel fid1 fid2 x y z c m e).voxels := by
  unfold addVoxel
  split
  · exact h
  · split
    · exact h
    · show NodupPos (if e.isMirrorMode then _ else _ : List SimulationVoxel)
      split
      · exact NodupPos_addOne _ _ _ _ _ _ _ (NodupPos_addOne _ _ _ _ _ _ _ h)
      · exact NodupPos_addOne _ _ _ _ _ _ _ h

/-- C3: along every sequence of place operations starting from a field with no
duplicate positions, the field never contains two voxels with identical
coordinates; and a place rejected for a duplicate coordinate or exceeded
capacity leaves the whole engine — voxel field, undo stack and redo stack —
unchanged. -/
theorem place_uniqueness_and_rejection :
    (∀ (ops : List EditOp) (e0 : Engine), NodupPos e0.voxels →
      NodupPos (applyEdits e0 ops).voxels) ∧
    (∀ (fid1 fid2 x y z : ℚ) (c : Nat) (m : VoxelMaterial) (e : Engine),
      MAX_VOXELS ≤ e.voxels.length ∨ occupied e.voxels x y z →
      addVoxel fid1 fid2 x y z c m e = e) := by
  constructor
  · intro ops
    induction ops with
    | nil => intro e0 h0; simpa [applyEdits] using h0
    | cons op ops ih =>
        intro e0 h0
        show NodupPos (applyEdits (applyEdit e0 op) ops).voxels
        match op with
        | .setMirror b => exact ih _ h0
        | .place f1 f2 x y z c m => exact ih _ (NodupPos_addVoxel f1 f2 x y z c m e0 h0)
  · rintro fid1 fid2 x y z c m e (h | h)
    · exact addVoxel_full fid1 fid2 x y z c m e h
    · exact addVoxel_dup fid1 fid2 x y z c m e h

/-- C3 witness. -/
theorem place_uniqueness_and_rejection_witness :
    NodupPos exEngineEmpty.voxels ∧
    NodupPos (applyEdits exEngineEmpty
      [.place 1 2 0 0 0 7 .matte, .place 3 4 0 0 0 9 .glow]).voxels :=
  ⟨by decide, place_uniqueness_and_rejection.1
    [.place 1 2 0 0 0 7 .matte, .place 3 4 0 0 0 9 .glow] exEngineEmpty (by decide)⟩

/-- Two-decimal rounding is idempotent. -/
theorem round2_idem (q : ℚ) : round2 (round2 q) = round2 q := by
  unfold round2
  have h1 : ((⌊q * 100 + 1 / 2⌋ : ℚ) / 100) * 100 + 1 / 2 =
      (⌊q * 100 + 1 / 2⌋ : ℚ) + 1 / 2 := by
    rw [div_mul_cancel₀ _ (by norm_num : (100 : ℚ) ≠ 0)]
  rw [h1]
  have h2 : ⌊(⌊q * 100 + 1 / 2⌋ : ℚ) + 1 / 2⌋ = ⌊q * 100 + 1 / 2⌋ := by
    rw [Int.floor_int_add]
    have : ⌊(1 : ℚ) / 2⌋ = 0 := by
      rw [Int.floor_eq_zero_iff]
      constructor <;> norm_num
    rw [this, add_zero]
  rw [h2]

/-- Reloading a snapshot and persisting again rounds each entry once more. -/
theorem persist_dataToVoxels_eq (d : List VoxelData) :
    persist (dataToVoxels d) = d.map roundEntry := by
  unfold persist dataToVoxels
  rw [List.map_map]
  show d.enum.map (roundEntry ∘ Prod.snd) = _
  rw [← List.map_map, List.enum_map_snd]

/-- Persisting a field rebuilt from a persisted snapshot gives back exactly the
snapshot. -/
theorem persist_dataToVoxels (vs : List SimulationVoxel) :
    persist (dataToVoxels (persist vs)) = persist vs := by
  rw [persist_dataToVoxels_eq]
  unfold persist
  rw [List.map_map]
  refine List.map_congr_left fun v _ => ?_
  show roundEntry ⟨round2 v.x, round2 v.y, round2 v.z, v.color, some v.material⟩ = _
  unfold roundEntry
  simp only [round2_idem]
  rfl

/-- Unfold `undo` when the undo stack is a cons. -/
theorem undo_cons (e : Engine) (d : List VoxelData) (rest : List (List VoxelData))
    (h : e.undoStack = d :: rest) :
    undo e = loadSnapshot d
      { e with redoStack := persist e.voxels :: e.redoStack, undoStack := rest } := by
  unfold undo
  split
  · next heq => rw [h] at heq; exact absurd heq (by simp)
  · next d2 rest2 heq =>
      rw [h] at heq
      injection heq with h1 h2
      rw [h1, h2]

/-- Unfold `redo` when the redo stack is a cons. -/
theorem redo_cons (e : Engine) (d : List VoxelData) (rest : List (List VoxelData))
    (h : e.redoStack = d :: rest) :
    redo e = loadSnapshot d
      { e with undoStack := persist e.voxels :: e.undoStack, redoStack := rest } := by
  unfold redo
  split
  · next heq => rw [h] at heq; exact absurd heq (by simp)
  · next d2 rest2 heq =>
      rw [h] at heq
      injection heq with h1 h2
      rw [h1, h2]

/-- The undo/redo round trip for any engine whose last action was a history
push of the state `e` followed by field mutation only. -/
theorem undo_redo_roundtrip (e e1 : Engine)
    (hu : e1.undoStack = (persist e.voxels :: e.undoStack).take maxHistory)
    (hr : e1.redoStack = []) :
    persist (undo e1).voxels = persist e.voxels ∧
    persist (redo (undo e1)).voxels = persist e1.voxels := by
  have htake : (persist e.voxels :: e.undoStack).take maxHistory =
      persist e.voxels :: e.undoStack.take 49 := rfl
  rw [htake] at hu
  have h1 := undo_cons e1 (persist e.voxels) (e.undoStack.take 49) hu
  have hv1 : (undo e1).voxels = dataToVoxels (persist e.voxels) := by rw [h1]; rfl
  have hre : (undo e1).redoStack = persist e1.voxels :: [] := by rw [h1, hr]; rfl
  have h2 := redo_cons (undo e1) (persist e1.voxels) [] hre
  have hv2 : (redo (undo e1)).voxels = dataToVoxels (persist e1.voxels) := by
    rw [h2]; rfl
  refine ⟨?_, ?_⟩
  · rw [hv1, persist_dataToVoxels]
  · rw [hv2, persist_dataToVoxels]

/-- Every accepted mutating operation pushes exactly one history snapshot (of
the pre-operation field) and clears the redo stack. -/
theorem applyMut_stacks (op : MutOp) (e : Engine) (h : Accepted op e) :
    (applyMut op e).undoStack = (persist e.voxels :: e.undoStack).take maxHistory ∧
    (applyMut op e).redoStack = [] := by
  cases op with
  | place f1 f2 x y z c m =>
      obtain ⟨hcap, hocc⟩ := h
      show ((addVoxel f1 f2 x y z c m e).undoStack = _) ∧
        ((addVoxel f1 f2 x y z c m e).redoStack = _)
      unfold addVoxel
      rw [if_neg (not_le.mpr hcap), if_neg hocc]
      exact ⟨rfl, rfl⟩
  | erase iid mat =>
      show ((removeVoxel iid mat e).undoStack = _) ∧
        ((removeVoxel iid mat e).redoStack = _)
      unfold removeVoxel
      split
      · exact ⟨rfl, rfl⟩
      · exact ⟨rfl, rfl⟩
  | fill sx sy sz c m =>
      obtain ⟨sv, hsv, hne⟩ := h
      show ((paintFill sx sy sz c m e).undoStack = _) ∧
        ((paintFill sx sy sz c m e).redoStack = _)
      unfold paintFill
      split
      · next heq => rw [hsv] at heq; exact absurd heq (by simp)
      · next sv2 heq =>
          rw [hsv] at heq
          injection heq with heq2
          subst heq2
          rw [if_neg hne]
          exact ⟨rfl, rfl⟩
  | delSel =>
      show ((deleteSelected e).undoStack = _) ∧ ((deleteSelected e).redoStack = _)
      unfold deleteSelected
      rw [if_neg h]
      exact ⟨rfl, rfl⟩
  | copySel ids =>
      show ((copySelected ids e).undoStack = _) ∧ ((copySelected ids e).redoStack = _)
      unfold copySelected
      rw [if_neg h]
      exact ⟨rfl, rfl⟩
  | moveSel a dir =>
      show ((moveSelected a dir e).undoStack = _) ∧ ((moveSelected a dir e).redoStack = _)
      unfold moveSelected
      rw [if_neg h]
      exact ⟨rfl, rfl⟩
  | rebuildOp oracle ids now target =>
      show ((rebuild oracle ids now target e).undoStack = _) ∧
        ((rebuild oracle ids now target e).redoStack = _)
      unfold rebuild
      rw [if_neg h]
      exact ⟨rfl, rfl⟩

/-- C4: for every accepted mutating operation, `undo()` right after it restores
exactly the persisted voxel set present beforehand, and `redo()` right after
that `undo()` restores exactly the persisted voxel set present after the
operation. -/
theorem undo_redo_inverse (op : MutOp) (e : Engine) (h : Accepted op e) :
    persist (undo (applyMut op e)).voxels = persist e.voxels ∧
    persist (redo (undo (applyMut op e))).voxels = persist (applyMut op e).voxels := by
  obtain ⟨hu, hr⟩ := applyMut_stacks op e h
  exact undo_redo_roundtrip e (applyMut op e) hu hr

/-- C4 witness. -/
theorem undo_redo_inverse_witness :
    Accepted (.place 1 2 0 0 0 7 .matte) exEngineEmpty ∧
    (persist (undo (applyMut (.place 1 2 0 0 0 7 .matte) exEngineEmpty)).voxels =
        persist exEngineEmpty.voxels ∧
      persist (redo (undo (applyMut (.place 1 2 0 0 0 7 .matte) exEngineEmpty))).voxels =
        persist (applyMut (.place 1 2 0 0 0 7 .matte) exEngineEmpty).voxels) :=
  ⟨(by decide : exEngineEmpty.voxels.length < MAX_VOXELS ∧
      ¬occupied exEngineEmpty.voxels 0 0 0),
    undo_redo_inverse (.place 1 2 0 0 0 7 .matte) exEngineEmpty
      (by decide : exEngineEmpty.voxels.length < MAX_VOXELS ∧
        ¬occupied exEngineEmpty.voxels 0 0 0)⟩

set_option maxRecDepth 40000 in
/-- C8: `copySelected` performs no capacity check — cloning a selected voxel in
a field already holding `MAX_VOXELS` voxels brings the count to 1501, above
the ceiling the specification requires it to respect. -/
theorem copySelected_ignores_capacity :
    MAX_VOXELS < (copySelected (fun k => (2000 : ℚ) + k) exEngineC8).voxels.length := by
  have hsel : exEngineC8.selectedVoxelIds ≠ [] := fun h => List.noConfusion h
  unfold copySelected
  rw [if_neg hsel]
  show MAX_VOXELS < (exEngineC8.voxels ++ _).length
  rw [List.length_append]
  have hlen : exEngineC8.voxels.length = 1500 := by
    show (bigRow 1500).length = 1500
    unfold bigRow
    rw [List.length_map, List.length_range]
  have hmem : mkVoxel ((0 : Nat) : ℚ) (((0 : Nat) : ℚ) + 2) 0 0 0 .matte ∈
      exEngineC8.voxels.filter
        (fun v => decide (v.id ∈ exEngineC8.selectedVoxelIds)) := by
    refine List.mem_filter.mpr ⟨?_, ?_⟩
    · exact List.mem_map.mpr ⟨0, List.mem_range.mpr (by norm_num), rfl⟩
    · show decide (((0 : Nat) : ℚ) ∈ [(0 : ℚ)]) = true
      rw [decide_eq_true_eq]
      rw [show ((0 : Nat) : ℚ) = (0 : ℚ) from Nat.cast_zero]
      exact List.mem_singleton.mpr rfl
  have hpos : 0 < (exEngineC8.voxels.filter
      (fun v => decide (v.id ∈ exEngineC8.selectedVoxelIds))).length :=
    List.length_pos.mpr (List.ne_nil_of_mem hmem)
  rw [List.length_map, List.enum_length]
  have hM : MAX_VOXELS = 1500 := rfl
  omega

/-- The cloning loop only appends, so it preserves the head of the source
list. -/
theorem cloneLoop_head (oracle : Nat → Nat) (ids : Nat → ℚ) :
    ∀ (n k : Nat) (src : List SimulationVoxel), src ≠ [] →
      (cloneLoop oracle ids k n src).head? = src.head?
  | 0, _, _, _ => rfl
  | n + 1, k, [], h => absurd rfl h
  | n + 1, k, v0 :: rest, _ => by
      show (cloneLoop oracle ids (k + 1) n ((v0 :: rest) ++ [_])).head? = _
      rw [cloneLoop_head oracle ids n (k + 1) ((v0 :: rest) ++ [_]) (by simp)]
      rfl

/-- The cloning loop appends exactly `n` clones. -/
theorem cloneLoop_length (oracle : Nat → Nat) (ids : Nat → ℚ) :
    ∀ (n k : Nat) (src : List SimulationVoxel), src ≠ [] →
      (cloneLoop oracle ids k n src).length = src.length + n
  | 0, _, _, _ => rfl
  | n + 1, k, [], h => absurd rfl h
  | n + 1, k, v0 :: rest, _ => by
      show (cloneLoop oracle ids (k + 1) n ((v0 :: rest) ++ [_])).length = _
      rw [cloneLoop_length oracle ids n (k + 1) ((v0 :: rest) ++ [_]) (by simp)]
      simp
      omega

/-- One solver iteration preserves the lengths of both accumulators. -/
theorem assignStep_lengths (st : List Avail × List (Option RebuildTarget))
    (t : VoxelData) :
    (assignStep st t).1.length = st.1.length ∧
    (assignStep st t).2.length = st.2.length := by
  unfold assignStep
  split
  · exact ⟨rfl, rfl⟩
  · split
    · exact ⟨rfl, rfl⟩
    · exact ⟨by simp, by simp⟩

/-- Folding the solver over the targets preserves the accumulator lengths. -/
theorem foldl_assign_lengths :
    ∀ (ts : List VoxelData) (st : List Avail × List (Option RebuildTarget)),
      (ts.foldl assignStep st).1.length = st.1.length ∧
      (ts.foldl assignStep st).2.length = st.2.length
  | [], _ => ⟨rfl, rfl⟩
  | t :: ts, st => by
      obtain ⟨h1, h2⟩ := foldl_assign_lengths ts (assignStep st t)
      obtain ⟨g1, g2⟩ := assignStep_lengths st t
      exact ⟨by rw [List.foldl_cons, h1, g1], by rw [List.foldl_cons, h2, g2]⟩

/-- The solver returns one mapping per (post-cloning) source voxel. -/
theorem solve_length (src : List SimulationVoxel) (targets : List VoxelData) :
    (solve src targets).length = src.length := by
  unfold solve
  rw [List.length_map, List.length_zip,
    (foldl_assign_lengths targets _).2, List.length_replicate, min_self]

/-- The voxel list installed by `rebuild` when the guard passes. -/
theorem rebuild_voxels (oracle : Nat → Nat) (ids : Nat → ℚ) (now : ℚ)
    (targetModel : List VoxelData) (e : Engine)
    (h : ¬(e.state = .rebuilding ∨ e.mode = .build)) :
    (rebuild oracle ids now targetModel e).voxels =
      cloneLoop oracle ids 0
        (targetModel.length -
          (if e.voxels.isEmpty then [placeholderVoxel] else e.voxels).length)
        (if e.voxels.isEmpty then [placeholderVoxel] else e.voxels) ∧
    (rebuild oracle ids now targetModel e).rebuildTargets =
      solve (rebuild oracle ids now targetModel e).voxels targetModel ∧
    (rebuild oracle ids now targetModel e).state = .rebuilding := by
  unfold rebuild
  rw [if_neg h]
  exact ⟨rfl, rfl, rfl⟩

/-- C9: calling `rebuild` on an empty voxel field does not fail — the engine
synthesizes exactly one placeholder source voxel (white `0xffffff`, Matte, at
`y = FLOOR_Y + 5`) as the head of the new source list, then proceeds through
the normal cloning/assignment pipeline and enters `REBUILDING`. -/
theorem rebuild_empty_field_placeholder (oracle : Nat → Nat) (ids : Nat → ℚ)
    (now : ℚ) (targetModel : List VoxelData) (e : Engine)
    (hempty : e.voxels = []) (h : ¬(e.state = .rebuilding ∨ e.mode = .build)) :
    (rebuild oracle ids now targetModel e).voxels.head? = some placeholderVoxel ∧
    placeholderVoxel.color = 16777215 ∧ placeholderVoxel.material = .matte ∧
    placeholderVoxel.y = FLOOR_Y + 5 ∧
    (rebuild oracle ids now targetModel e).voxels.length =
      max 1 targetModel.length ∧
    (rebuild oracle ids now targetModel e).rebuildTargets.length =
      (rebuild oracle ids now targetModel e).voxels.length ∧
    (rebuild oracle ids now targetModel e).state = .rebuilding := by
  obtain ⟨hv, ht, hs⟩ := rebuild_voxels oracle ids now targetModel e h
  rw [hempty] at hv
  simp only [List.isEmpty_nil, if_true] at hv
  refine ⟨?_, rfl, rfl, rfl, ?_, ?_, hs⟩
  · rw [hv, cloneLoop_head oracle ids _ 0 [placeholderVoxel] (by simp)]
    rfl
  · rw [hv, cloneLoop_length oracle ids _ 0 [placeholderVoxel] (by simp)]
    simp only [List.length_singleton]
    omega
  · rw [ht, solve_length]

/-- C9 witness. -/
theorem rebuild_empty_field_placeholder_witness :
    exEngineEmpty.voxels = [] ∧
    ¬(exEngineEmpty.state = .rebuilding ∨ exEngineEmpty.mode = .build) ∧
    ((rebuild (fun _ => 0) (fun k => (k : ℚ)) 3
        [⟨0, 0, 0, 255, some .matte⟩, ⟨0, 1, 0, 255, some .matte⟩]
        exEngineEmpty).voxels.head? = some placeholderVoxel ∧
      placeholderVoxel.color = 16777215 ∧ placeholderVoxel.material = .matte ∧
      placeholderVoxel.y = FLOOR_Y + 5 ∧
      (rebuild (fun _ => 0) (fun k => (k : ℚ)) 3
        [⟨0, 0, 0, 255, some .matte⟩, ⟨0, 1, 0, 255, some .matte⟩]
        exEngineEmpty).voxels.length = max 1 2 ∧
      (rebuild (fun _ => 0) (fun k => (k : ℚ)) 3
        [⟨0, 0, 0, 255, some .matte⟩, ⟨0, 1, 0, 255, some .matte⟩]
        exEngineEmpty).rebuildTargets.length =
        (rebuild (fun _ => 0) (fun k => (k : ℚ)) 3
          [⟨0, 0, 0, 255, some .matte⟩, ⟨0, 1, 0, 255, some .matte⟩]
          exEngineEmpty).voxels.length ∧
      (rebuild (fun _ => 0) (fun k => (k : ℚ)) 3
        [⟨0, 0, 0, 255, some .matte⟩, ⟨0, 1, 0, 255, some .matte⟩]
        exEngineEmpty).state = .rebuilding) :=
  ⟨rfl, by decide,
    rebuild_empty_field_placeholder (fun _ => 0) (fun k => (k : ℚ)) 3
      [⟨0, 0, 0, 255, some .matte⟩, ⟨0, 1, 0, 255, some .matte⟩]
      exEngineEmpty rfl (by decide)⟩

/-- C1 witness (for the amended theorem). -/
theorem rebuilding_to_stable_matched_arrived_witness :
    exEngineC1.state = .rebuilding ∧ (updatePhysics 0 exEngineC1).state = .stable ∧
    (∀ (i : Nat) (v : SimulationVoxel) (t : RebuildTarget),
      (updatePhysics 0 exEngineC1).voxels[i]? = some v →
      exEngineC1.rebuildTargets[i]? = some t → t.isRubble = false →
      v.x = t.x ∧ v.y = t.y ∧ v.z = t.z ∧ t.delay ≤ 0 - exEngineC1.rebuildStartTime) :=
  ⟨by decide, by with_unfolding_all decide,
    rebuilding_to_stable_matched_arrived 0 exEngineC1 (by decide)
      (by with_unfolding_all decide)⟩

/-- Squared color distances are nonnegative. -/
theorem colorDistSq_nonneg (c1 c2 : Nat) : 0 ≤ colorDistSq c1 c2 := by
  unfold colorDistSq
  positivity

/-- The exact score order `Score.ltB` decides precisely the comparison of the
real-valued scores `sqrt d2 + (mismatch ? 0.4 : 0)` that the source computes
with floating-point `Math.sqrt`. -/
theorem Score.ltB_iff_real (s1 s2 : Score) (h1 : 0 ≤ s1.d2) (h2 : 0 ≤ s2.d2) :
    Score.ltB s1 s2 = true ↔
      Real.sqrt (s1.d2 : ℝ) + (if s1.mismatch then (2 / 5 : ℝ) else 0) <
        Real.sqrt (s2.d2 : ℝ) + (if s2.mismatch then (2 / 5 : ℝ) else 0) := by
  obtain ⟨p, m1⟩ := s1
  obtain ⟨q, m2⟩ := s2
  simp only at h1 h2
  have hp : (0 : ℝ) ≤ (p : ℝ) := by exact_mod_cast h1
  have hq : (0 : ℝ) ≤ (q : ℝ) := by exact_mod_cast h2
  cases m1 <;> cases m2
  · show decide (p < q) = true ↔ Real.sqrt p + 0 < Real.sqrt q + 0
    rw [decide_eq_true_eq, add_zero, add_zero, Real.sqrt_lt_sqrt_iff hp]
    exact_mod_cast Iff.rfl
  · -- match on the left, penalty on the right: sqrt p < sqrt q + 2/5
    show decide (p - q - 4 / 25 < 0 ∨ (p - q - 4 / 25 = 0 ∧ 0 < q) ∨
        (0 < p - q - 4 / 25 ∧ (p - q - 4 / 25) ^ 2 < 16 / 25 * q)) = true ↔
      Real.sqrt p + 0 < Real.sqrt q + 2 / 5
    rw [decide_eq_true_eq, add_zero]
    have hpos : (0 : ℝ) < Real.sqrt q + 2 / 5 := by positivity
    have hexp : (Real.sqrt q + 2 / 5) ^ 2 = (q : ℝ) + 4 / 5 * Real.sqrt q + 4 / 25 := by
      rw [add_sq, Real.sq_sqrt hq]
      ring
    have key : Real.sqrt p < Real.sqrt q + 2 / 5 ↔
        (p : ℝ) - q - 4 / 25 < 4 / 5 * Real.sqrt q := by
      rw [Real.sqrt_lt' hpos, hexp]
      constructor <;> intro h <;> linarith
    have hsq : (4 : ℝ) / 5 * Real.sqrt q = Real.sqrt (16 / 25 * q) := by
      rw [Real.sqrt_mul (by norm_num : (0 : ℝ) ≤ 16 / 25) q,
        show (16 / 25 : ℝ) = (4 / 5) ^ 2 by norm_num,
        Real.sqrt_sq (by norm_num : (0 : ℝ) ≤ 4 / 5)]
    rw [key]
    constructor
    · rintro (hk | ⟨hk, hq0⟩ | ⟨hk, hk2⟩)
      · have hkR : ((p : ℝ)) - q - 4 / 25 < 0 := by
          have : ((p - q - 4 / 25 : ℚ) : ℝ) < 0 := by exact_mod_cast hk
          push_cast at this
          linarith
        have : (0 : ℝ) ≤ 4 / 5 * Real.sqrt q := by positivity
        linarith
      · have hkR : ((p : ℝ)) - q - 4 / 25 = 0 := by
          have : ((p - q - 4 / 25 : ℚ) : ℝ) = 0 := by exact_mod_cast hk
          push_cast at this
          linarith
        have : (0 : ℝ) < Real.sqrt q := Real.sqrt_pos.mpr (by exact_mod_cast hq0)
        rw [hkR]
        positivity
      · have hkR : (0 : ℝ) < ((p : ℝ)) - q - 4 / 25 := by
          have : (0 : ℝ) < ((p - q - 4 / 25 : ℚ) : ℝ) := by exact_mod_cast hk
          push_cast at this
          linarith
        rw [hsq]
        rw [Real.lt_sqrt (le_of_lt hkR)]
        have : (((p - q - 4 / 25) ^ 2 : ℚ) : ℝ) < ((16 / 25 * q : ℚ) : ℝ) := by
          exact_mod_cast hk2
        push_cast at this
        nlinarith [this]
    · intro h
      rcases lt_trichotomy (p - q - 4 / 25) 0 with hk | hk | hk
      · exact Or.inl hk
      · refine Or.inr (Or.inl ⟨hk, ?_⟩)
        have hkR : ((p : ℝ)) - q - 4 / 25 = 0 := by
          have : ((p - q - 4 / 25 : ℚ) : ℝ) = 0 := by exact_mod_cast hk
          push_cast at this
          linarith
        rw [hkR] at h
        have hsqrtpos : (0 : ℝ) < Real.sqrt q := by linarith
        have : (0 : ℝ) < (q : ℝ) := Real.sqrt_pos.mp hsqrtpos
        exact_mod_cast this
      · refine Or.inr (Or.inr ⟨hk, ?_⟩)
        have hkR : (0 : ℝ) < ((p : ℝ)) - q - 4 / 25 := by
          have : (0 : ℝ) < ((p - q - 4 / 25 : ℚ) : ℝ) := by exact_mod_cast hk
          push_cast at this
          linarith
        rw [hsq, Real.lt_sqrt (le_of_lt hkR)] at h
        have hcast : (((p : ℝ)) - q - 4 / 25) ^ 2 < 16 / 25 * q := h
        have : ((p - q - 4 / 25 : ℚ) : ℝ) ^ 2 < ((16 / 25 * q : ℚ) : ℝ) := by
          push_cast
          nlinarith [hcast]
        exact_mod_cast this
  · -- penalty on the left, match on the right: sqrt p + 2/5 < sqrt q
    show decide (0 < q - p - 4 / 25 ∧ 16 / 25 * p < (q - p - 4 / 25) ^ 2) = true ↔
      Real.sqrt p + 2 / 5 < Real.sqrt q + 0
    rw [decide_eq_true_eq, add_zero]
    have hnn : (0 : ℝ) ≤ Real.sqrt p + 2 / 5 := by positivity
    have hexp : (Real.sqrt p + 2 / 5) ^ 2 = (p : ℝ) + 4 / 5 * Real.sqrt p + 4 / 25 := by
      rw [add_sq, Real.sq_sqrt hp]
      ring
    have key : Real.sqrt p + 2 / 5 < Real.sqrt q ↔
        4 / 5 * Real.sqrt p < (q : ℝ) - p - 4 / 25 := by
      rw [Real.lt_sqrt hnn, hexp]
      constructor <;> intro h <;> linarith
    have hsq : (4 : ℝ) / 5 * Real.sqrt p = Real.sqrt (16 / 25 * p) := by
      rw [Real.sqrt_mul (by norm_num : (0 : ℝ) ≤ 16 / 25) p,
        show (16 / 25 : ℝ) = (4 / 5) ^ 2 by norm_num,
        Real.sqrt_sq (by norm_num : (0 : ℝ) ≤ 4 / 5)]
    rw [key, hsq]
    constructor
    · rintro ⟨hk, hk2⟩
      have hkR : (0 : ℝ) < ((q : ℝ)) - p - 4 / 25 := by
        have : (0 : ℝ) < ((q - p - 4 / 25 : ℚ) : ℝ) := by exact_mod_cast hk
        push_cast at this
        linarith
      rw [Real.sqrt_lt' hkR]
      have : ((16 / 25 * p : ℚ) : ℝ) < ((q - p - 4 / 25 : ℚ) : ℝ) ^ 2 := by
        exact_mod_cast hk2
      push_cast at this
      nlinarith [this]
    · intro h
      have hkR : (0 : ℝ) < ((q : ℝ)) - p - 4 / 25 :=
        lt_of_le_of_lt (Real.sqrt_nonneg _) h
      have hk : (0 : ℚ) < q - p - 4 / 25 := by
        have : (0 : ℝ) < ((q - p - 4 / 25 : ℚ) : ℝ) := by push_cast; linarith
        exact_mod_cast this
      refine ⟨hk, ?_⟩
      rw [Real.sqrt_lt' hkR] at h
      have : ((16 / 25 * p : ℚ) : ℝ) < ((q - p - 4 / 25 : ℚ) : ℝ) ^ 2 := by
        push_cast
        nlinarith [h]
      exact_mod_cast this
  · show decide (p < q) = true ↔
      Real.sqrt p + 2 / 5 < Real.sqrt q + 2 / 5
    rw [decide_eq_true_eq, add_lt_add_iff_right, Real.sqrt_lt_sqrt_iff hp]
    exact_mod_cast Iff.rfl

/-- The inner solver loop returns nothing exactly when it started with nothing
and every candidate is already assigned. -/
theorem pickBestAux_eq_none (t : VoxelData) :
    ∀ (l : List Avail) (k : Nat) (best : Option (Score × Nat)),
      pickBestAux t k l best = none ↔ best = none ∧ ∀ a ∈ l, a.taken = true
  | [], k, best => by simp [pickBestAux]
  | a :: rest, k, best => by
      unfold pickBestAux
      by_cases ha : a.taken
      · rw [if_pos ha, pickBestAux_eq_none t rest (k + 1) best]
        constructor
        · rintro ⟨h1, h2⟩
          refine ⟨h1, fun b hb => ?_⟩
          rcases List.mem_cons.mp hb with rfl | hb
          · exact ha
          · exact h2 b hb
        · rintro ⟨h1, h2⟩
          exact ⟨h1, fun b hb => h2 b (List.mem_cons_of_mem _ hb)⟩
      · rw [if_neg ha]
        have hnone : ∀ (b0 : Score × Nat),
            ¬pickBestAux t (k + 1) rest (some b0) = none := by
          intro b0 h
          rw [pickBestAux_eq_none t rest (k + 1) (some b0)] at h
          exact Option.noConfusion h.1
        constructor
        · intro h
          exfalso
          cases best with
          | none => exact hnone _ h
          | some b =>
              dsimp only at h
              by_cases hlt : Score.ltB (mkScore a.color a.mat t) b.1 = true
              · rw [if_pos hlt] at h
                exact hnone _ h
              · rw [if_neg hlt] at h
                exact hnone _ h
        · rintro ⟨-, h2⟩
          exact absurd (h2 a (List.mem_cons_self _ _)) (by simpa using ha)

/-- Where a winner returned by the inner solver loop comes from: either it is
the incumbent, or it is an unassigned candidate at its own scan position. -/
theorem pickBestAux_origin (t : VoxelData) :
    ∀ (l : List Avail) (k : Nat) (best : Option (Score × Nat)) (s : Score) (i : Nat),
      pickBestAux t k l best = some (s, i) →
      best = some (s, i) ∨ ∃ j a, l.get? j = some a ∧ a.taken = false ∧
        s = mkScore a.color a.mat t ∧ i = k + j
  | [], k, best, s, i => fun h => Or.inl h
  | a :: rest, k, best, s, i => by
      unfold pickBestAux
      by_cases ha : a.taken
      · rw [if_pos ha]
        intro h
        rcases pickBestAux_origin t rest (k + 1) best s i h with h1 | ⟨j, b, hj, hb, hs, hi⟩
        · exact Or.inl h1
        · exact Or.inr ⟨j + 1, b, by simpa using hj, hb, hs, by omega⟩
      · rw [if_neg ha]
        have step : ∀ (b0 : Score × Nat),
            pickBestAux t (k + 1) rest (some b0) = some (s, i) →
            (b0 = (s, i)) ∨ ∃ j a2, (a :: rest).get? j = some a2 ∧ a2.taken = false ∧
              s = mkScore a2.color a2.mat t ∧ i = k + j := by
          intro b0 h
          rcases pickBestAux_origin t rest (k + 1) (some b0) s i h with h1 | ⟨j, b, hj, hb, hs, hi⟩
          · exact Or.inl (by injection h1)
          · exact Or.inr ⟨j + 1, b, by simpa using hj, hb, hs, by omega⟩
        cases best with
        | none =>
            intro h
            dsimp only at h
            rcases step _ h with h1 | h1
            · have hs : mkScore a.color a.mat t = s := congrArg Prod.fst h1
              have hi : k = i := congrArg Prod.snd h1
              exact Or.inr ⟨0, a, rfl, eq_false_of_ne_true ha, hs.symm, by omega⟩
            · exact Or.inr h1
        | some b =>
            intro h
            dsimp only at h
            by_cases hlt : Score.ltB (mkScore a.color a.mat t) b.1 = true
            · rw [if_pos hlt] at h
              rcases step _ h with h1 | h1
              · have hs : mkScore a.color a.mat t = s := congrArg Prod.fst h1
                have hi : k = i := congrArg Prod.snd h1
                exact Or.inr ⟨0, a, rfl, eq_false_of_ne_true ha, hs.symm, by omega⟩
              · exact Or.inr h1
            · rw [if_neg hlt] at h
              rcases step _ h with h1 | h1
              · exact Or.inl (by rw [h1])
              · exact Or.inr h1

/-- Running the inner loop with an incumbent is the same as running it with
the `bestScore = 9999` sentinel and then letting the incumbent win all ties
(strict improvement only).  `f` is any reading of the candidate scores as real
numbers that agrees with the exact order `Score.ltB`. -/
theorem pickBestAux_merge (t : VoxelData) (f : Avail → ℝ)
    (hf : ∀ a b : Avail,
      Score.ltB (mkScore a.color a.mat t) (mkScore b.color b.mat t) = true ↔ f a < f b) :
    ∀ (l : List Avail) (k : Nat) (a0 : Avail) (i0 : Nat),
      pickBestAux t k l (some (mkScore a0.color a0.mat t, i0)) =
        match pickBestAux t k l none with
        | none => some (mkScore a0.color a0.mat t, i0)
        | some r =>
            if Score.ltB r.1 (mkScore a0.color a0.mat t) then some r
            else some (mkScore a0.color a0.mat t, i0)
  | [], k, a0, i0 => rfl
  | a :: rest, k, a0, i0 => by
      by_cases ha : a.taken
      · show pickBestAux t k (a :: rest) _ = _
        unfold pickBestAux
        rw [if_pos ha, if_pos ha]
        exact pickBestAux_merge t f hf rest (k + 1) a0 i0
      · have e1 : pickBestAux t k (a :: rest) none =
            if a.taken = true then pickBestAux t (k + 1) rest none
            else pickBestAux t (k + 1) rest (some (mkScore a.color a.mat t, k)) := rfl
        have hand : pickBestAux t k (a :: rest) none =
            pickBestAux t (k + 1) rest (some (mkScore a.color a.mat t, k)) := by
          rw [e1, if_neg ha]
        have e2 : pickBestAux t k (a :: rest) (some (mkScore a0.color a0.mat t, i0)) =
            if a.taken = true then
              pickBestAux t (k + 1) rest (some (mkScore a0.color a0.mat t, i0))
            else if Score.ltB (mkScore a.color a.mat t)
                (mkScore a0.color a0.mat t) = true then
              pickBestAux t (k + 1) rest (some (mkScore a.color a.mat t, k))
            else pickBestAux t (k + 1) rest (some (mkScore a0.color a0.mat t, i0)) := rfl
        have hlhs : pickBestAux t k (a :: rest)
              (some (mkScore a0.color a0.mat t, i0)) =
            if Score.ltB (mkScore a.color a.mat t) (mkScore a0.color a0.mat t) then
              pickBestAux t (k + 1) rest (some (mkScore a.color a.mat t, k))
            else pickBestAux t (k + 1) rest (some (mkScore a0.color a0.mat t, i0)) := by
          rw [e2, if_neg ha]
        have iha := pickBestAux_merge t f hf rest (k + 1) a k
        have ih0 := pickBestAux_merge t f hf rest (k + 1) a0 i0
        rw [hand, hlhs, iha, ih0]
        rcases hN : pickBestAux t (k + 1) rest none with _ | r
        · by_cases h2 : Score.ltB (mkScore a.color a.mat t)
              (mkScore a0.color a0.mat t) = true <;> simp [h2]
        · obtain ⟨rs, ri⟩ := r
          have horigin := pickBestAux_origin t rest (k + 1) none rs ri hN
          rcases horigin with hbad | ⟨j, ar, hj, har, hs, hi⟩
          · exact Option.noConfusion hbad
          · by_cases h1 : Score.ltB rs (mkScore a.color a.mat t) = true
            · by_cases h2 : Score.ltB (mkScore a.color a.mat t)
                  (mkScore a0.color a0.mat t) = true
              · have h3 : Score.ltB rs (mkScore a0.color a0.mat t) = true := by
                  rw [hs] at h1 ⊢
                  rw [hf] at h1 h2 ⊢
                  exact lt_trans h1 h2
                simp [h1, h2, h3]
              · simp [h1, h2]
            · by_cases h2 : Score.ltB (mkScore a.color a.mat t)
                  (mkScore a0.color a0.mat t) = true
              · simp [h1, h2]
              · have h3 : ¬Score.ltB rs (mkScore a0.color a0.mat t) = true := by
                  rw [hs] at h1 ⊢
                  intro hc
                  rw [hf] at hc
                  have hle1 : f a ≤ f ar :=
                    not_lt.mp fun hc2 => h1 (by rw [hf]; exact hc2)
                  have hle2 : f a0 ≤ f a :=
                    not_lt.mp fun hc2 => h2 (by rw [hf]; exact hc2)
                  exact absurd hc (not_lt.mpr (le_trans hle2 hle1))
                simp [h1, h2, h3]

/-- The inner solver loop, started from the sentinel, picks the unassigned
candidate with the smallest real-valued score, ties broken in favor of the
earliest scan position. -/
theorem pickBestAux_spec (t : VoxelData) (f : Avail → ℝ)
    (hf : ∀ a b : Avail,
      Score.ltB (mkScore a.color a.mat t) (mkScore b.color b.mat t) = true ↔ f a < f b) :
    ∀ (l : List Avail) (k : Nat), (∃ a ∈ l, a.taken = false) →
      ∃ (j : Nat) (a : Avail), l.get? j = some a ∧ a.taken = false ∧
        pickBestAux t k l none = some (mkScore a.color a.mat t, k + j) ∧
        (∀ (j2 : Nat) (b : Avail), l.get? j2 = some b → b.taken = false →
          f a ≤ f b) ∧
        (∀ (j2 : Nat) (b : Avail), j2 < j → l.get? j2 = some b → b.taken = false →
          f a < f b)
  | [], k, hex => absurd hex (by simp)
  | a :: rest, k, hex => by
      by_cases ha : a.taken = true
      · have hrest : ∃ b ∈ rest, b.taken = false := by
          rcases hex with ⟨b, hb, hbf⟩
          rcases List.mem_cons.mp hb with rfl | hb
          · exact absurd ha (by rw [hbf]; exact Bool.false_ne_true)
          · exact ⟨b, hb, hbf⟩
        obtain ⟨j, w, hj, hw, hrun, hmin, hstrict⟩ :=
          pickBestAux_spec t f hf rest (k + 1) hrest
        have hstep : pickBestAux t k (a :: rest) none =
            pickBestAux t (k + 1) rest none := by
          rw [show pickBestAux t k (a :: rest) none =
            if a.taken = true then pickBestAux t (k + 1) rest none
            else pickBestAux t (k + 1) rest (some (mkScore a.color a.mat t, k))
            from rfl, if_pos ha]
        refine ⟨j + 1, w, by simpa using hj, hw, ?_, ?_, ?_⟩
        · rw [hstep, hrun]
          congr 1
          congr 1
          omega
        · intro j2 b hb hbf
          match j2, hb with
          | 0, hb =>
              have : b = a := by injection hb with hba; exact hba.symm
              rw [this] at hbf
              exact absurd ha (by rw [hbf]; exact Bool.false_ne_true)
          | j2 + 1, hb => exact hmin j2 b (by simpa using hb) hbf
        · intro j2 b hlt hb hbf
          match j2, hb with
          | 0, hb =>
              have : b = a := by injection hb with hba; exact hba.symm
              rw [this] at hbf
              exact absurd ha (by rw [hbf]; exact Bool.false_ne_true)
          | j2 + 1, hb =>
              exact hstrict j2 b (by omega) (by simpa using hb) hbf
      · have hstep : pickBestAux t k (a :: rest) none =
            pickBestAux t (k + 1) rest (some (mkScore a.color a.mat t, k)) := by
          rw [show pickBestAux t k (a :: rest) none =
            if a.taken = true then pickBestAux t (k + 1) rest none
            else pickBestAux t (k + 1) rest (some (mkScore a.color a.mat t, k))
            from rfl, if_neg ha]
        rw [hstep, pickBestAux_merge t f hf rest (k + 1) a k]
        rcases hN : pickBestAux t (k + 1) rest none with _ | r
        · -- no unassigned candidate in the tail: the head wins at position 0
          have hall : ∀ b ∈ rest, b.taken = true :=
            ((pickBestAux_eq_none t rest (k + 1) none).mp hN).2
          refine ⟨0, a, rfl, eq_false_of_ne_true ha, rfl, ?_, ?_⟩
          · intro j2 b hb hbf
            match j2, hb with
            | 0, hb =>
                have : b = a := by injection hb with hba; exact hba.symm
                rw [this]
            | j2 + 1, hb =>
                have hmem : b ∈ rest := List.get?_mem (by simpa using hb)
                exact absurd (hall b hmem) (by rw [hbf]; exact Bool.false_ne_true)
          · intro j2 b hlt _ _
            omega
        · have hrest : ∃ b ∈ rest, b.taken = false := by
            by_contra hno
            push_neg at hno
            have hall : ∀ b ∈ rest, b.taken = true := by
              intro b hb
              simpa using hno b hb
            rw [(pickBestAux_eq_none t rest (k + 1) none).mpr ⟨rfl, hall⟩] at hN
            exact Option.noConfusion hN
          obtain ⟨j, w, hj, hw, hrun, hmin, hstrict⟩ :=
            pickBestAux_spec t f hf rest (k + 1) hrest
          rw [hN] at hrun
          have hr : r = (mkScore w.color w.mat t, k + 1 + j) := by
            injection hrun with h
          subst hr
          dsimp only
          by_cases hcmp : Score.ltB (mkScore w.color w.mat t)
              (mkScore a.color a.mat t) = true
          · -- the tail's winner strictly beats the head
            rw [if_pos hcmp]
            refine ⟨j + 1, w, by simpa using hj, hw, by rw [show k + (j + 1) = k + 1 + j
              from by omega], ?_, ?_⟩
            · intro j2 b hb hbf
              match j2, hb with
              | 0, hb =>
                  have : b = a := by injection hb with hba; exact hba.symm
                  rw [this]
                  exact le_of_lt ((hf w a).mp hcmp)
              | j2 + 1, hb => exact hmin j2 b (by simpa using hb) hbf
            · intro j2 b hlt hb hbf
              match j2, hb with
              | 0, hb =>
                  have : b = a := by injection hb with hba; exact hba.symm
                  rw [this]
                  exact (hf w a).mp hcmp
              | j2 + 1, hb =>
                  exact hstrict j2 b (by omega) (by simpa using hb) hbf
          · -- the head wins (ties included)
            rw [if_neg hcmp]
            have hle : f a ≤ f w := not_lt.mp fun hc => hcmp ((hf w a).mpr hc)
            refine ⟨0, a, rfl, eq_false_of_ne_true ha, rfl, ?_, ?_⟩
            · intro j2 b hb hbf
              match j2, hb with
              | 0, hb =>
                  have : b = a := by injection hb with hba; exact hba.symm
                  rw [this]
              | j2 + 1, hb =>
                  exact le_trans hle (hmin j2 b (by simpa using hb) hbf)
            · intro j2 b hlt _ _
              omega

/-- C6: one solver iteration, on a target `t`, picks the not-yet-assigned
source entry whose score `colorDistance + (0 if materials equal else 0.4)` is
minimal (scores read as real numbers, `colorDistance` the Euclidean distance in
normalized RGB, i.e. `sqrt (colorDistSq)`), ties broken in favor of the lowest
scan index, and then marks exactly that entry assigned and records the target's
mapping in its slot. -/
theorem greedy_assignment_step (t : VoxelData) (avail : List Avail)
    (maps : List (Option RebuildTarget))
    (hidx : ∀ (i : Nat) (a : Avail), avail.get? i = some a → a.index = i)
    (hex : ∃ a ∈ avail, a.taken = false) :
    ∃ (i : Nat) (a : Avail), avail.get? i = some a ∧ a.taken = false ∧
      a.index = i ∧
      pickBest t avail = some (mkScore a.color a.mat t, i) ∧
      (∀ (j : Nat) (b : Avail), avail.get? j = some b → b.taken = false →
        Real.sqrt (colorDistSq a.color t.color : ℝ) +
            (if t.material = some a.mat then (0 : ℝ) else 2 / 5) ≤
          Real.sqrt (colorDistSq b.color t.color : ℝ) +
            (if t.material = some b.mat then (0 : ℝ) else 2 / 5)) ∧
      (∀ (j : Nat) (b : Avail), j < i → avail.get? j = some b → b.taken = false →
        Real.sqrt (colorDistSq a.color t.color : ℝ) +
            (if t.material = some a.mat then (0 : ℝ) else 2 / 5) <
          Real.sqrt (colorDistSq b.color t.color : ℝ) +
            (if t.material = some b.mat then (0 : ℝ) else 2 / 5)) ∧
      assignStep (avail, maps) t =
        (avail.set i { a with taken := true },
         maps.set a.index (some (matchedTarget t))) := by
  have hpen : ∀ c : Avail,
      (if (mkScore c.color c.mat t).mismatch = true then (2 / 5 : ℝ) else 0) =
        (if t.material = some c.mat then (0 : ℝ) else 2 / 5) := by
    intro c
    show (if decide (¬t.material = some c.mat) = true then (2 / 5 : ℝ) else 0) = _
    by_cases h : t.material = some c.mat <;> simp [h]
  have hf : ∀ a b : Avail,
      Score.ltB (mkScore a.color a.mat t) (mkScore b.color b.mat t) = true ↔
        (Real.sqrt (colorDistSq a.color t.color : ℝ) +
            (if t.material = some a.mat then (0 : ℝ) else 2 / 5)) <
          (Real.sqrt (colorDistSq b.color t.color : ℝ) +
            (if t.material = some b.mat then (0 : ℝ) else 2 / 5)) := by
    intro a b
    rw [Score.ltB_iff_real (mkScore a.color a.mat t) (mkScore b.color b.mat t)
      (colorDistSq_nonneg _ _) (colorDistSq_nonneg _ _)]
    rw [hpen a, hpen b]
    exact Iff.rfl
  obtain ⟨j, a, hj, ha, hrun, hmin, hstrict⟩ :=
    pickBestAux_spec t
      (fun c => Real.sqrt (colorDistSq c.color t.color : ℝ) +
        (if t.material = some c.mat then (0 : ℝ) else 2 / 5)) hf avail 0 hex
  rw [zero_add] at hrun
  have hrun2 : pickBest t avail = some (mkScore a.color a.mat t, j) := hrun
  have hstep : assignStep (avail, maps) t =
      (avail.set j { a with taken := true },
       maps.set a.index (some (matchedTarget t))) := by
    unfold assignStep
    rw [hrun2]
    dsimp only
    rw [hj]
  exact ⟨j, a, hj, ha, hidx j a hj, hrun2, hmin, hstrict, hstep⟩

/-- Witness for C6 on a two-source instance with a blue Matte target. -/
theorem greedy_assignment_step_witness :
    (∀ (i : Nat) (a : Avail), exAvailC6.get? i = some a → a.index = i) ∧
    (∃ a ∈ exAvailC6, a.taken = false) ∧
    (∃ (i : Nat) (a : Avail), exAvailC6.get? i = some a ∧ a.taken = false ∧
      a.index = i ∧
      pickBest exTargetC6 exAvailC6 = some (mkScore a.color a.mat exTargetC6, i) ∧
      (∀ (j : Nat) (b : Avail), exAvailC6.get? j = some b → b.taken = false →
        Real.sqrt (colorDistSq a.color exTargetC6.color : ℝ) +
            (if exTargetC6.material = some a.mat then (0 : ℝ) else 2 / 5) ≤
          Real.sqrt (colorDistSq b.color exTargetC6.color : ℝ) +
            (if exTargetC6.material = some b.mat then (0 : ℝ) else 2 / 5)) ∧
      (∀ (j : Nat) (b : Avail), j < i → exAvailC6.get? j = some b →
        b.taken = false →
        Real.sqrt (colorDistSq a.color exTargetC6.color : ℝ) +
            (if exTargetC6.material = some a.mat then (0 : ℝ) else 2 / 5) <
          Real.sqrt (colorDistSq b.color exTargetC6.color : ℝ) +
            (if exTargetC6.material = some b.mat then (0 : ℝ) else 2 / 5)) ∧
      assignStep (exAvailC6, exMapsC6) exTargetC6 =
        (exAvailC6.set i { a with taken := true },
         exMapsC6.set a.index (some (matchedTarget exTargetC6)))) := by
  have hidx : ∀ (i : Nat) (a : Avail), exAvailC6.get? i = some a → a.index = i := by
    intro i a h
    match i, h with
    | 0, h => injection h with hh; rw [← hh]
    | 1, h => injection h with hh; rw [← hh]
    | n + 2, h => exact Option.noConfusion h
  have hex : ∃ a ∈ exAvailC6, a.taken = false :=
    ⟨⟨0, 0, .matte, false⟩, by decide, rfl⟩
  exact ⟨hidx, hex, greedy_assignment_step exTargetC6 exAvailC6 exMapsC6 hidx hex⟩

/-- Replacing a non-`p` element by a `p` element raises the `countP` by one. -/
theorem countP_set_incr {α : Type} (p : α → Bool) (l : List α) (i : Nat) (a b : α)
    (h : l.get? i = some a) (hpa : p a = false) (hpb : p b = true) :
    (l.set i b).countP p = l.countP p + 1 := by
  induction l generalizing i with
  | nil => exact Option.noConfusion h
  | cons x xs ih =>
      match i, h with
      | 0, h =>
          injection h with hx
          subst hx
          simp [List.countP_cons, hpa, hpb]
      | i + 1, h =>
          simp only [List.set_cons_succ, List.countP_cons, ih i h]
          omega

/-- If fewer sources are taken than exist, some source is still unassigned. -/
theorem exists_not_taken (avail : List Avail)
    (h : avail.countP (fun a => a.taken) < avail.length) :
    ∃ a ∈ avail, a.taken = false := by
  by_contra hno
  push_neg at hno
  have : avail.countP (fun a => a.taken) = avail.length :=
    List.countP_eq_length.mpr fun a ha => by simpa using hno a ha
  omega

/-- An index that resolves must be inside the list. -/
theorem lt_length_of_get?_eq_some {α : Type} (l : List α) (i : Nat) (a : α)
    (h : l.get? i = some a) : i < l.length := by
  by_contra hge
  rw [List.get?_eq_none.mpr (by omega)] at h
  exact Option.noConfusion h

/-- The solver invariant holds initially. -/
theorem solveInv_init (src : List SimulationVoxel) :
    SolveInv src.length 0
      (mkAvail src, List.replicate src.length (none : Option RebuildTarget)) := by
  refine ⟨by simp [mkAvail], by simp, ?_, ?_, ?_, ?_, ?_⟩
  · intro i a h
    rw [mkAvail, List.get?_map, List.enum_get?] at h
    rcases hs : src.get? i with _ | v
    · rw [hs] at h
      exact Option.noConfusion h
    · rw [hs] at h
      injection h with hh
      rw [← hh]
  · refine List.countP_eq_zero.mpr ?_
    intro a ha
    obtain ⟨iv, _, rfl⟩ := List.mem_map.mp ha
    simp
  · refine List.countP_eq_zero.mpr ?_
    intro o ho
    rw [List.eq_of_mem_replicate ho]
    simp
  · intro i
    rcases hs : src.get? i with _ | v
    · have hlen : src.length ≤ i := List.get?_eq_none.mp hs
      rw [mkAvail, List.get?_map, List.enum_get?, hs]
      rw [List.get?_eq_none.mpr (by simpa using hlen)]
      rfl
    · have hi : i < src.length := lt_length_of_get?_eq_some src i v hs
      rw [mkAvail, List.get?_map, List.enum_get?, hs]
      rcases hr : (List.replicate src.length (none : Option RebuildTarget)).get? i
        with _ | o
      · have : src.length ≤ i := by simpa using List.get?_eq_none.mp hr
        omega
      · rw [List.eq_of_mem_replicate (List.get?_mem hr)]
        rfl
  · intro i rt h
    have := List.eq_of_mem_replicate (List.get?_mem h)
    exact Option.noConfusion this

/-- One solver iteration with room left takes exactly one more source and fills
exactly one more mapping, preserving the bookkeeping invariant. -/
theorem assignStep_inv (len n : Nat) (st : List Avail × List (Option RebuildTarget))
    (t : VoxelData) (h : SolveInv len n st) (hn : n < len) :
    SolveInv len (n + 1) (assignStep st t) := by
  obtain ⟨st1, st2⟩ := st
  obtain ⟨h1, h2, hidx, hc1, hc2, hcorr, hnr⟩ := h
  dsimp only at h1 h2 hidx hc1 hc2 hcorr hnr
  have hex : ∃ a ∈ st1, a.taken = false := exists_not_taken st1 (by omega)
  rcases hp : pickBest t st1 with _ | si
  · obtain ⟨-, hall⟩ := (pickBestAux_eq_none t st1 0 none).mp hp
    obtain ⟨b, hb, hbf⟩ := hex
    exact absurd (hall b hb) (by rw [hbf]; exact Bool.false_ne_true)
  obtain ⟨s, i⟩ := si
  have horigin := pickBestAux_origin t st1 0 none s i hp
  rcases horigin with hbad | ⟨j, a, hj, haf, hs, hi⟩
  · exact Option.noConfusion hbad
  have hij : i = j := by omega
  subst hij
  have hjlt1 : i < st1.length := lt_length_of_get?_eq_some st1 i a hj
  have hidxa : a.index = i := hidx i a hj
  have hcorri := hcorr i
  rw [hj] at hcorri
  rcases hm : st2.get? i with _ | o
  · rw [hm] at hcorri
    exact Option.noConfusion hcorri
  rw [hm] at hcorri
  have ho : o.isSome = false := by
    injection hcorri with hh
    rw [haf] at hh
    exact hh.symm
  have honone : o = none := Option.not_isSome_iff_eq_none.mp (by rw [ho]; exact Bool.false_ne_true)
  subst honone
  have hjlt2 : i < st2.length := lt_length_of_get?_eq_some st2 i none hm
  have hstep : assignStep (st1, st2) t =
      (st1.set i { a with taken := true },
       st2.set a.index (some (matchedTarget t))) := by
    unfold assignStep
    rw [hp]
    dsimp only
    rw [hj]
  rw [hstep, hidxa]
  refine ⟨by simpa using h1, by simpa using h2, ?_, ?_, ?_, ?_, ?_⟩
  · intro i2 b hb
    by_cases hij2 : i2 = i
    · subst hij2
      rw [List.get?_set_eq_of_lt _ hjlt1] at hb
      injection hb with hbb
      rw [← hbb]
    · rw [List.get?_set_ne _ _ fun hc => hij2 hc.symm] at hb
      exact hidx i2 b hb
  · rw [countP_set_incr (fun x => x.taken) st1 i a _ hj haf rfl, hc1]
  · rw [countP_set_incr (fun x => x.isSome) st2 i none _ hm rfl rfl, hc2]
  · intro i2
    by_cases hij2 : i2 = i
    · subst hij2
      rw [List.get?_set_eq_of_lt _ hjlt1, List.get?_set_eq_of_lt _ hjlt2]
      rfl
    · rw [List.get?_set_ne _ _ fun hc => hij2 hc.symm,
        List.get?_set_ne _ _ fun hc => hij2 hc.symm]
      exact hcorr i2
  · intro i2 rt hrt
    by_cases hij2 : i2 = i
    · subst hij2
      rw [List.get?_set_eq_of_lt _ hjlt2] at hrt
      injection hrt with hh
      injection hh with hh2
      rw [← hh2]
      rfl
    · rw [List.get?_set_ne _ _ fun hc => hij2 hc.symm] at hrt
      exact hnr i2 rt hrt

/-- The solver invariant after folding over all targets. -/
theorem foldl_assign_inv (len : Nat) :
    ∀ (ts : List VoxelData) (n : Nat) (st : List Avail × List (Option RebuildTarget)),
      SolveInv len n st → n + ts.length ≤ len →
      SolveInv len (n + ts.length) (ts.foldl assignStep st)
  | [], n, st, h, _ => by simpa using h
  | t :: ts, n, st, h, hle => by
      have hstep := assignStep_inv len n st t h (by simp at hle; omega)
      have := foldl_assign_inv len ts (n + 1) (assignStep st t) hstep (by simp at hle; omega)
      simpa [List.foldl_cons, Nat.add_assoc, Nat.add_comm 1 ts.length] using this

/-- Counting matched mappings after the rubble fill equals counting filled
slots before it. -/
theorem fill_count :
    ∀ (ms : List (Option RebuildTarget)) (vs : List SimulationVoxel),
      (∀ (i : Nat) (rt : RebuildTarget), ms.get? i = some (some rt) →
        rt.isRubble = false) →
      ((ms.zip vs).map fun om => om.1.getD (rubbleOf om.2)).countP
          (fun rt => !rt.isRubble) = (ms.zip vs).countP (fun om => om.1.isSome)
  | [], _, _ => rfl
  | _ :: _, [], _ => rfl
  | m :: ms, v :: vs, h => by
      have ih := fill_count ms vs fun i rt hrt => h (i + 1) rt (by simpa using hrt)
      rcases m with _ | rt
      · simp only [List.zip_cons_cons, List.map_cons, List.countP_cons, ih]
        rfl
      · have hrt : rt.isRubble = false := h 0 rt rfl
        simp only [List.zip_cons_cons, List.map_cons, List.countP_cons, ih]
        simp [hrt]

/-- Counting filled slots in the zip equals counting them in the mapping list
when the lists have equal length. -/
theorem zip_countP_isSome :
    ∀ (ms : List (Option RebuildTarget)) (vs : List SimulationVoxel),
      ms.length = vs.length →
      (ms.zip vs).countP (fun om => om.1.isSome) = ms.countP (fun o => o.isSome)
  | [], [], _ => rfl
  | [], _ :: _, h => by simp at h
  | _ :: _, [], h => by simp at h
  | m :: ms, v :: vs, h => by
      have ih := zip_countP_isSome ms vs (by simpa using h)
      simp only [List.zip_cons_cons, List.countP_cons, ih]

/-- Provided at least as many sources as targets, the solver output keeps the
source count and carries exactly one matched (non-rubble) entry per target. -/
theorem solve_conservation (src : List SimulationVoxel) (targets : List VoxelData)
    (hM : targets.length ≤ src.length) :
    (solve src targets).length = src.length ∧
    (solve src targets).countP (fun rt => !rt.isRubble) = targets.length := by
  have hinv := foldl_assign_inv src.length targets 0
    (mkAvail src, List.replicate src.length (none : Option RebuildTarget))
    (solveInv_init src) (by simpa using hM)
  obtain ⟨-, h2, -, -, hc2, -, hnr⟩ := hinv
  refine ⟨solve_length src targets, ?_⟩
  have hsolve : solve src targets =
      ((targets.foldl assignStep
          (mkAvail src,
           List.replicate src.length (none : Option RebuildTarget))).2.zip
        src).map (fun om => om.1.getD (rubbleOf om.2)) := rfl
  rw [hsolve, fill_count _ src hnr, zip_countP_isSome _ src h2, hc2]
  omega

/-- C5: for every accepted `rebuild(target)` call with `N` source voxels and
`M` target voxels, the solver output (matched plus rubble entries) has length
`max (max N 1) M` — the post-cloning source count, which is `max (1, M)` when
`N = 0` after placeholder synthesis — that length equals the rebuilt voxel
count, exactly `M` entries are matched (non-rubble) target assignments, and
the length is at least `M`.  Every entry is a total `RebuildTarget`: the
rubble fill leaves no empty slot. -/
theorem assignment_conservation (oracle : Nat → Nat) (ids : Nat → ℚ) (now : ℚ)
    (targetModel : List VoxelData) (e : Engine)
    (h : ¬(e.state = .rebuilding ∨ e.mode = .build)) :
    (rebuild oracle ids now targetModel e).rebuildTargets.length =
      max (max e.voxels.length 1) targetModel.length ∧
    (rebuild oracle ids now targetModel e).rebuildTargets.length =
      (rebuild oracle ids now targetModel e).voxels.length ∧
    (rebuild oracle ids now targetModel e).rebuildTargets.countP
      (fun rt => !rt.isRubble) = targetModel.length ∧
    targetModel.length ≤
      (rebuild oracle ids now targetModel e).rebuildTargets.length := by
  obtain ⟨hv, hrt, -⟩ := rebuild_voxels oracle ids now targetModel e h
  have hne : (if e.voxels.isEmpty then [placeholderVoxel] else e.voxels) ≠ [] := by
    rcases hev : e.voxels with _ | ⟨v, vs⟩ <;> simp [hev]
  have hlen1 : (if e.voxels.isEmpty then [placeholderVoxel] else e.voxels).length
      = max e.voxels.length 1 := by
    rcases hev : e.voxels with _ | ⟨v, vs⟩ <;> simp [hev]
  have hcv : (rebuild oracle ids now targetModel e).voxels.length
      = max (max e.voxels.length 1) targetModel.length := by
    rw [hv, cloneLoop_length oracle ids _ 0 _ hne, hlen1]
    omega
  have hM : targetModel.length ≤
      (rebuild oracle ids now targetModel e).voxels.length := by
    rw [hcv]
    omega
  obtain ⟨hl, hcount⟩ :=
    solve_conservation (rebuild oracle ids now targetModel e).voxels targetModel hM
  rw [hrt]
  exact ⟨by rw [hl, hcv], by rw [hl], hcount, by rw [hl]; exact hM⟩

/-- The six neighbor cells of a position are pairwise distinct. -/
theorem neighbors_nodup (p : Pos) : (neighbors p).Nodup := by
  simp [neighbors, Prod.ext_iff]
  exact ⟨by intro h; linarith, by intro h; linarith, by intro h; linarith⟩

/-- `find?` only depends on the predicate extensionally. -/
theorem find?_congr {α : Type} (p q : α → Bool) (h : ∀ a, p a = q a) :
    ∀ l : List α, l.find? p = l.find? q
  | [] => rfl
  | a :: l => by
      rcases hp : p a with _ | _
      · rw [List.find?_cons_of_neg _ (by simp [hp]),
          List.find?_cons_of_neg _ (by simp [← h, hp]),
          find?_congr p q h l]
      · rw [List.find?_cons_of_pos _ hp,
          List.find?_cons_of_pos _ (by rw [← h]; exact hp)]

/-- Spatial lookup commutes with any position-preserving transform. -/
theorem lookupAt_map_pos (g : SimulationVoxel → SimulationVoxel)
    (hg : ∀ v, posOf (g v) = posOf v) :
    ∀ (vs : List SimulationVoxel) (p : Pos),
      lookupAt (vs.map g) p = (lookupAt vs p).map g
  | [], _ => rfl
  | v :: vs, p => by
      by_cases hp : posOf v = p
      · rw [lookupAt, List.map_cons, List.find?_cons_of_pos _ (by simp [hg, hp]),
          lookupAt, List.find?_cons_of_pos _ (by simp [hp])]
        rfl
      · rw [lookupAt, List.map_cons, List.find?_cons_of_neg _ (by simp [hg, hp]),
          lookupAt, List.find?_cons_of_neg _ (by simp [hp])]
        exact lookupAt_map_pos g hg vs p

/-- The repainting transform preserves positions. -/
theorem posOf_paint (fc : Nat) (fm : VoxelMaterial) (painted : Pos → Bool)
    (v : SimulationVoxel) :
    posOf (if painted (posOf v) then { v with color := fc, material := fm }
      else v) = posOf v := by
  by_cases h : painted (posOf v) = true
  · rw [if_pos h]
    rfl
  · rw [if_neg h]

/-- Spatial lookup in a partially repainted field. -/
theorem lookupAt_paintApply (fc : Nat) (fm : VoxelMaterial)
    (painted : Pos → Bool) (F0 : List SimulationVoxel) (p : Pos) :
    lookupAt (paintApply fc fm painted F0) p = (lookupAt F0 p).map fun v =>
      if painted (posOf v) then { v with color := fc, material := fm } else v :=
  lookupAt_map_pos _ (posOf_paint fc fm painted) F0 p

/-- What a successful spatial lookup returns. -/
theorem lookupAt_eq_some (vs : List SimulationVoxel) (p : Pos)
    (v : SimulationVoxel) (h : lookupAt vs p = some v) :
    v ∈ vs ∧ posOf v = p :=
  ⟨List.mem_of_find?_eq_some h, by simpa using List.find?_some h⟩

/-- An occupied cell is the position of some field voxel. -/
theorem mem_map_posOf (vs : List SimulationVoxel) (p : Pos)
    (h : (lookupAt vs p).isSome = true) : p ∈ vs.map posOf := by
  rcases Option.isSome_iff_exists.mp h with ⟨v, hv⟩
  obtain ⟨hmem, hpos⟩ := lookupAt_eq_some vs p v hv
  exact hpos ▸ List.mem_map_of_mem posOf hmem

/-- Repainting only depends on the painted predicate extensionally. -/
theorem paintApply_congr (fc : Nat) (fm : VoxelMaterial)
    (pr1 pr2 : Pos → Bool) (F0 : List SimulationVoxel)
    (h : ∀ p, pr1 p = pr2 p) :
    paintApply fc fm pr1 F0 = paintApply fc fm pr2 F0 :=
  List.map_congr_left fun v _ => by rw [h]

/-- Painting nothing is the identity. -/
theorem paintApply_false (fc : Nat) (fm : VoxelMaterial)
    (F0 : List SimulationVoxel) :
    paintApply fc fm (fun _ => false) F0 = F0 := by
  simp [paintApply]

/-- Pairwise-distinct positions, phrased through `posOf`. -/
theorem nodupPos_pairwise (vs : List SimulationVoxel) (h : NodupPos vs) :
    vs.Pairwise fun a b => posOf a ≠ posOf b := by
  refine h.imp ?_
  intro a b hab hc
  exact hab (by simpa [posOf, Prod.ext_iff] using hc)

/-- In a duplicate-free field, looking up a voxel's own position finds it. -/
theorem lookupAt_self :
    ∀ (vs : List SimulationVoxel),
      (vs.Pairwise fun a b => posOf a ≠ posOf b) →
      ∀ v : SimulationVoxel, v ∈ vs → lookupAt vs (posOf v) = some v
  | [], _, v, hv => absurd hv (List.not_mem_nil v)
  | w :: ws, hnd, v, hv => by
      rcases List.mem_cons.mp hv with rfl | hv2
      · rw [lookupAt, List.find?_cons_of_pos _ (by simp)]
      · have hne : posOf w ≠ posOf v := (List.pairwise_cons.mp hnd).1 v hv2
        rw [lookupAt, List.find?_cons_of_neg _ (by simpa using hne)]
        exact lookupAt_self ws (List.pairwise_cons.mp hnd).2 v hv2

/-- The repainted field, read per index. -/
theorem paintApply_get? (fc : Nat) (fm : VoxelMaterial) (painted : Pos → Bool)
    (F0 : List SimulationVoxel) (i : Nat) :
    (paintApply fc fm painted F0).get? i = (F0.get? i).map fun v =>
      if painted (posOf v) then { v with color := fc, material := fm } else v :=
  List.get?_map _ F0 i

/-- Popping a cell that does not hold the original pair preserves the fill
invariant. -/
theorem fillInv_pop_skip (F0 : List SimulationVoxel) (tc : Nat)
    (tm : VoxelMaterial) (fc : Nat) (fm : VoxelMaterial) (start : Pos)
    (p : Pos) (rest : List Pos) (V : List Pos) (fld : List SimulationVoxel)
    (hinv : FillInv F0 tc tm fc fm start ⟨p :: rest, V, fld⟩)
    (hm : matchesB F0 tc tm p = false) :
    FillInv F0 tc tm fc fm start ⟨rest, V, fld⟩ := by
  obtain ⟨hstart, hnodup, hqv, hreg, hfield, hclose⟩ := hinv
  dsimp only at hstart hnodup hqv hreg hfield hclose
  refine ⟨hstart, (List.nodup_cons.mp hnodup).2,
    fun q hq2 => hqv q (List.mem_cons_of_mem p hq2), hreg, ?_, ?_⟩
  · dsimp only
    rw [hfield]
    apply paintApply_congr
    intro p2
    by_cases hp2 : p2 = p
    · subst hp2
      rw [hm]
      simp
    · simp [List.mem_cons, hp2]
  · dsimp only
    intro p2 hp2v hp2nq hm2 n hn hocc
    by_cases hp2p : p2 = p
    · subst hp2p
      rw [hm2] at hm
      exact Bool.noConfusion hm
    · refine hclose p2 hp2v ?_ hm2 n hn hocc
      intro hmem
      rcases List.mem_cons.mp hmem with h | h
      · exact hp2p h
      · exact hp2nq h

/-- One BFS iteration preserves the fill invariant. -/
theorem fillStep_inv (F0 : List SimulationVoxel) (tc : Nat)
    (tm : VoxelMaterial) (fc : Nat) (fm : VoxelMaterial) (start : Pos)
    (s : FillState) (hinv : FillInv F0 tc tm fc fm start s)
    (p : Pos) (rest : List Pos) (hq : s.queue = p :: rest) :
    FillInv F0 tc tm fc fm start (fillStep tc tm fc fm s) := by
  obtain ⟨queue, V, fld⟩ := s
  dsimp only at hq
  subst hq
  obtain ⟨hstart, hnodup, hqv, hreg, hfield, hclose⟩ := hinv
  dsimp only at hstart hnodup hqv hreg hfield hclose
  have hppred : (decide (p ∈ V) && !decide (p ∈ p :: rest) &&
      matchesB F0 tc tm p) = false := by
    simp [List.mem_cons]
  rcases hw : lookupAt F0 p with _ | w
  · have hlf : lookupAt fld p = none := by
      rw [hfield, lookupAt_paintApply, hw]
      rfl
    have hm : matchesB F0 tc tm p = false := by simp [matchesB, hw]
    show FillInv F0 tc tm fc fm start
      (match (⟨p :: rest, V, fld⟩ : FillState).queue with
       | [] => (⟨p :: rest, V, fld⟩ : FillState)
       | p2 :: rest2 => _)
    rw [show fillStep tc tm fc fm ⟨p :: rest, V, fld⟩ = ⟨rest, V, fld⟩ by
      unfold fillStep
      dsimp only
      rw [hlf]]
    exact fillInv_pop_skip F0 tc tm fc fm start p rest V fld
      ⟨hstart, hnodup, hqv, hreg, hfield, hclose⟩ hm
  · obtain ⟨hwmem, hwpos⟩ := lookupAt_eq_some F0 p w hw
    have hlf : lookupAt fld p = some w := by
      rw [hfield, lookupAt_paintApply, hw]
      dsimp only [Option.map]
      rw [hwpos, if_neg (by simp [hppred])]
    by_cases hcond : w.color = tc ∧ w.material = tm
    · -- the popped cell matches: repaint and enqueue the fresh neighbors
      have hm : matchesB F0 tc tm p = true := by
        simp [matchesB, hw, hcond.1, hcond.2]
      have hstep : fillStep tc tm fc fm ⟨p :: rest, V, fld⟩ =
          ⟨rest ++ (neighbors p).filter
              (fun n => decide (n ∉ V) && (lookupAt fld n).isSome),
            V ++ (neighbors p).filter
              (fun n => decide (n ∉ V) && (lookupAt fld n).isSome),
            repaintAt fc fm p fld⟩ := by
        unfold fillStep
        dsimp only
        rw [hlf]
        dsimp only
        rw [if_pos hcond]
      rw [hstep]
      set ns := (neighbors p).filter
        (fun n => decide (n ∉ V) && (lookupAt fld n).isSome) with hnsdef
      have hns : ∀ n ∈ ns, n ∈ neighbors p ∧ n ∉ V ∧
          (lookupAt F0 n).isSome = true := by
        intro n hn
        obtain ⟨hn1, hn2⟩ := List.mem_filter.mp hn
        rw [Bool.and_eq_true] at hn2
        refine ⟨hn1, by simpa using hn2.1, ?_⟩
        have h3 := hn2.2
        rw [hfield, lookupAt_paintApply] at h3
        simpa using h3
      have hns2 : ∀ n, n ∈ neighbors p → n ∉ V →
          (lookupAt F0 n).isSome = true → n ∈ ns := by
        intro n h1 h2 h3
        refine List.mem_filter.mpr ⟨h1, ?_⟩
        rw [Bool.and_eq_true]
        refine ⟨by simpa using h2, ?_⟩
        rw [hfield, lookupAt_paintApply]
        simpa using h3
      have hnsnd : ns.Nodup := (neighbors_nodup p).filter _
      have hpV : p ∈ V := hqv p (List.mem_cons_self p rest)
      have hprest : p ∉ rest := (List.nodup_cons.mp hnodup).1
      have hpns : p ∉ ns := fun h => (hns p h).2.1 hpV
      refine ⟨List.mem_append_left ns hstart, ?_, ?_, ?_, ?_, ?_⟩
      · exact List.nodup_append.mpr ⟨(List.nodup_cons.mp hnodup).2, hnsnd,
          fun a ha1 ha2 => (hns a ha2).2.1 (hqv a (List.mem_cons_of_mem p ha1))⟩
      · intro q hq2
        rcases List.mem_append.mp hq2 with h | h
        · exact List.mem_append_left ns (hqv q (List.mem_cons_of_mem p h))
        · exact List.mem_append_right V h
      · intro q hq2
        rcases List.mem_append.mp hq2 with h | h
        · exact hreg q h
        · exact Region.step p q (hreg p hpV) hm (hns q h).1
      · dsimp only
        rw [hfield]
        unfold repaintAt paintApply
        rw [List.map_map]
        apply List.map_congr_left
        intro v hv
        dsimp only [Function.comp]
        by_cases hvp : posOf v = p
        · have h1 : ¬((decide (posOf v ∈ V) && !decide (posOf v ∈ p :: rest) &&
              matchesB F0 tc tm (posOf v)) = true) := by
            rw [hvp, hppred]
            exact Bool.false_ne_true
          have h2 : (decide (posOf v ∈ V ++ ns) &&
              !decide (posOf v ∈ rest ++ ns) &&
              matchesB F0 tc tm (posOf v)) = true := by
            rw [hvp]
            simp only [List.mem_append, Bool.and_eq_true, Bool.not_eq_true',
              decide_eq_false_iff_not, decide_eq_true_eq]
            exact ⟨⟨Or.inl hpV, by
              push_neg
              exact ⟨hprest, hpns⟩⟩, hm⟩
          rw [if_neg h1, if_pos hvp, if_pos h2]
        · have hpeq : (decide (posOf v ∈ V) && !decide (posOf v ∈ p :: rest) &&
                matchesB F0 tc tm (posOf v)) =
              (decide (posOf v ∈ V ++ ns) &&
                !decide (posOf v ∈ rest ++ ns) &&
                matchesB F0 tc tm (posOf v)) := by
            by_cases hin : posOf v ∈ ns
            · have hnotV := (hns _ hin).2.1
              simp [hnotV, List.mem_append, hin]
            · simp [List.mem_append, List.mem_cons, hvp, hin]
          rw [← hpeq]
          by_cases hpredv : (decide (posOf v ∈ V) &&
              !decide (posOf v ∈ p :: rest) &&
              matchesB F0 tc tm (posOf v)) = true
          · rw [if_pos hpredv]
            exact if_neg fun hc => hvp hc
          · rw [if_neg hpredv]
            exact if_neg hvp
      · dsimp only
        intro p2 hp2v hp2nq hm2 n hn hocc
        rcases List.mem_append.mp hp2v with hpV2 | hpns2
        · by_cases hp2p : p2 = p
          · subst hp2p
            by_cases hnV : n ∈ V
            · exact List.mem_append_left ns hnV
            · exact List.mem_append_right V (hns2 n hn hnV hocc)
          · have hp2old : p2 ∉ p :: rest := by
              intro hmem
              rcases List.mem_cons.mp hmem with h | h
              · exact hp2p h
              · exact hp2nq (List.mem_append_left ns h)
            exact List.mem_append_left ns
              (hclose p2 hpV2 hp2old hm2 n hn hocc)
        · exact absurd (List.mem_append_right rest hpns2) hp2nq
    · -- the popped cell no longer matches: drop it
      have hm : matchesB F0 tc tm p = false := by
        simp only [matchesB, hw, Option.elim]
        simpa using hcond
      rw [show fillStep tc tm fc fm ⟨p :: rest, V, fld⟩ = ⟨rest, V, fld⟩ by
        unfold fillStep
        dsimp only
        rw [hlf]
        dsimp only
        rw [if_neg hcond]]
      exact fillInv_pop_skip F0 tc tm fc fm start p rest V fld
        ⟨hstart, hnodup, hqv, hreg, hfield, hclose⟩ hm

/-- The worklist measure strictly decreases on every iteration with a
nonempty queue. -/
theorem fillStep_measure (F0 : List SimulationVoxel) (tc : Nat)
    (tm : VoxelMaterial) (fc : Nat) (fm : VoxelMaterial) (start : Pos)
    (s : FillState) (hinv : FillInv F0 tc tm fc fm start s)
    (p : Pos) (rest : List Pos) (hq : s.queue = p :: rest) :
    fillMeasure F0 (fillStep tc tm fc fm s) < fillMeasure F0 s := by
  obtain ⟨queue, V, fld⟩ := s
  dsimp only at hq
  subst hq
  obtain ⟨hstart, hnodup, hqv, hreg, hfield, hclose⟩ := hinv
  dsimp only at hstart hnodup hqv hreg hfield hclose
  rcases hw : lookupAt F0 p with _ | w
  · have hlf : lookupAt fld p = none := by
      rw [hfield, lookupAt_paintApply, hw]
      rfl
    rw [show fillStep tc tm fc fm ⟨p :: rest, V, fld⟩ = ⟨rest, V, fld⟩ by
      unfold fillStep
      dsimp only
      rw [hlf]]
    unfold fillMeasure
    dsimp only
    simp only [List.length_cons]
    omega
  · obtain ⟨hwmem, hwpos⟩ := lookupAt_eq_some F0 p w hw
    have hppred : (decide (p ∈ V) && !decide (p ∈ p :: rest) &&
        matchesB F0 tc tm p) = false := by
      simp [List.mem_cons]
    have hlf : lookupAt fld p = some w := by
      rw [hfield, lookupAt_paintApply, hw]
      dsimp only [Option.map]
      rw [hwpos, if_neg (by simp [hppred])]
    by_cases hcond : w.color = tc ∧ w.material = tm
    · have hstep : fillStep tc tm fc fm ⟨p :: rest, V, fld⟩ =
          ⟨rest ++ (neighbors p).filter
              (fun n => decide (n ∉ V) && (lookupAt fld n).isSome),
            V ++ (neighbors p).filter
              (fun n => decide (n ∉ V) && (lookupAt fld n).isSome),
            repaintAt fc fm p fld⟩ := by
        unfold fillStep
        dsimp only
        rw [hlf]
        dsimp only
        rw [if_pos hcond]
      rw [hstep]
      set ns := (neighbors p).filter
        (fun n => decide (n ∉ V) && (lookupAt fld n).isSome) with hnsdef
      have hns : ∀ n ∈ ns, n ∈ neighbors p ∧ n ∉ V ∧
          (lookupAt F0 n).isSome = true := by
        intro n hn
        obtain ⟨hn1, hn2⟩ := List.mem_filter.mp hn
        rw [Bool.and_eq_true] at hn2
        refine ⟨hn1, by simpa using hn2.1, ?_⟩
        have h3 := hn2.2
        rw [hfield, lookupAt_paintApply] at h3
        simpa using h3
      have hnsnd : ns.Nodup := (neighbors_nodup p).filter _
      have hsub : ns.toFinset ⊆ (F0.map posOf).toFinset \ V.toFinset := by
        intro x hx
        have hxns : x ∈ ns := List.mem_toFinset.mp hx
        obtain ⟨h1, h2, h3⟩ := hns x hxns
        exact Finset.mem_sdiff.mpr ⟨List.mem_toFinset.mpr (mem_map_posOf F0 x h3),
          fun hc => h2 (List.mem_toFinset.mp hc)⟩
      have hdd : (F0.map posOf).toFinset \ (V ++ ns).toFinset =
          ((F0.map posOf).toFinset \ V.toFinset) \ ns.toFinset := by
        ext x
        simp only [Finset.mem_sdiff, List.toFinset_append, Finset.mem_union]
        tauto
      have hcard : ((F0.map posOf).toFinset \ (V ++ ns).toFinset).card =
          ((F0.map posOf).toFinset \ V.toFinset).card - ns.toFinset.card := by
        rw [hdd, Finset.card_sdiff hsub]
      have hle : ns.toFinset.card ≤
          ((F0.map posOf).toFinset \ V.toFinset).card :=
        Finset.card_le_card hsub
      have hlen : ns.toFinset.card = ns.length :=
        List.toFinset_card_of_nodup hnsnd
      unfold fillMeasure
      dsimp only
      rw [hcard]
      simp only [List.length_append, List.length_cons]
      omega
    · rw [show fillStep tc tm fc fm ⟨p :: rest, V, fld⟩ = ⟨rest, V, fld⟩ by
        unfold fillStep
        dsimp only
        rw [hlf]
        dsimp only
        rw [if_neg hcond]]
      unfold fillMeasure
      dsimp only
      simp only [List.length_cons]
      omega

/-- With fuel at least the measure, the BFS drains its queue while keeping the
invariant. -/
theorem bfsRun_drain (F0 : List SimulationVoxel) (tc : Nat) (tm : VoxelMaterial)
    (fc : Nat) (fm : VoxelMaterial) (start : Pos) :
    ∀ (fuel : Nat) (s : FillState), FillInv F0 tc tm fc fm start s →
      fillMeasure F0 s ≤ fuel →
      (bfsRun tc tm fc fm fuel s).queue = [] ∧
      FillInv F0 tc tm fc fm start (bfsRun tc tm fc fm fuel s)
  | 0, s, hinv, hfuel => by
      obtain ⟨queue, V, fld⟩ := s
      rcases hq : queue with _ | ⟨p, rest⟩
      · subst hq
        exact ⟨rfl, hinv⟩
      · subst hq
        exfalso
        unfold fillMeasure at hfuel
        dsimp only at hfuel
        simp only [List.length_cons] at hfuel
        omega
  | fuel + 1, s, hinv, hfuel => by
      obtain ⟨queue, V, fld⟩ := s
      rcases hq : queue with _ | ⟨p, rest⟩
      · subst hq
        exact ⟨rfl, hinv⟩
      · subst hq
        have hred : bfsRun tc tm fc fm (fuel + 1) ⟨p :: rest, V, fld⟩ =
            bfsRun tc tm fc fm fuel
              (fillStep tc tm fc fm ⟨p :: rest, V, fld⟩) := rfl
        rw [hred]
        have hinv2 := fillStep_inv F0 tc tm fc fm start
          ⟨p :: rest, V, fld⟩ hinv p rest rfl
        have hdec := fillStep_measure F0 tc tm fc fm start
          ⟨p :: rest, V, fld⟩ hinv p rest rfl
        exact bfsRun_drain F0 tc tm fc fm start fuel
          (fillStep tc tm fc fm ⟨p :: rest, V, fld⟩) hinv2 (by omega)

/-- At a drained BFS state, every reachable matching cell has been visited. -/
theorem region_visited_drained (F0 : List SimulationVoxel) (tc : Nat)
    (tm : VoxelMaterial) (fc : Nat) (fm : VoxelMaterial) (start : Pos)
    (s : FillState) (hinv : FillInv F0 tc tm fc fm start s)
    (hq : s.queue = []) :
    ∀ p, Region F0 tc tm start p → matchesB F0 tc tm p = true →
      p ∈ s.visited := by
  intro p hreg
  induction hreg with
  | base =>
      intro _
      exact hinv.1
  | step q r hq2 hmq hnbr ih =>
      intro hmr
      have hqv : q ∈ s.visited := ih hmq
      have hocc : (lookupAt F0 r).isSome = true := by
        rcases hlr : lookupAt F0 r with _ | v
        · have : matchesB F0 tc tm r = false := by simp [matchesB, hlr]
          rw [this] at hmr
          exact Bool.noConfusion hmr
        · simp
      exact hinv.2.2.2.2.2 q hqv (by rw [hq]; exact List.not_mem_nil q)
        hmq r hnbr hocc

/-- C7: `paintFill(start, fillHex, fillMat)` repaints exactly the voxels whose
original `(color, material)` pair equals the start voxel's pair and which are
6-connected to the start cell through cells holding that pair; every other
voxel — in particular any neighbor with a different original pair — keeps its
color and material; and when the start voxel already carries the fill pair the
call is a complete no-op: the engine, including both history stacks, is
unchanged. -/
theorem paint_bucket_flood_fill_scope (sx sy sz : ℚ) (fc : Nat)
    (fm : VoxelMaterial) (e : Engine) (sv : SimulationVoxel)
    (hnd : NodupPos e.voxels)
    (hfind : e.voxels.find?
      (fun v => decide (v.x = sx ∧ v.y = sy ∧ v.z = sz)) = some sv) :
    (sv.color = fc ∧ sv.material = fm → paintFill sx sy sz fc fm e = e) ∧
    (¬(sv.color = fc ∧ sv.material = fm) →
      (paintFill sx sy sz fc fm e).voxels.length = e.voxels.length ∧
      ∀ (i : Nat) (v : SimulationVoxel), e.voxels.get? i = some v →
        ((Region e.voxels sv.color sv.material (sx, sy, sz) (posOf v) ∧
            v.color = sv.color ∧ v.material = sv.material) →
          (paintFill sx sy sz fc fm e).voxels.get? i =
            some { v with color := fc, material := fm }) ∧
        (¬(Region e.voxels sv.color sv.material (sx, sy, sz) (posOf v) ∧
            v.color = sv.color ∧ v.material = sv.material) →
          (paintFill sx sy sz fc fm e).voxels.get? i = some v)) := by
  have hPF : paintFill sx sy sz fc fm e =
      if sv.color = fc ∧ sv.material = fm then e else
        { pushHistory e with voxels :=
            (bfsRun sv.color sv.material fc fm (2 * e.voxels.length + 1)
              ⟨[(sx, sy, sz)], [(sx, sy, sz)], e.voxels⟩).field } := by
    unfold paintFill
    rw [hfind]
  constructor
  · intro hc
    rw [hPF, if_pos hc]
  · intro hc
    have hPFv : (paintFill sx sy sz fc fm e).voxels =
        (bfsRun sv.color sv.material fc fm (2 * e.voxels.length + 1)
          ⟨[(sx, sy, sz)], [(sx, sy, sz)], e.voxels⟩).field := by
      rw [hPF, if_neg hc]
    obtain ⟨hx, hy, hz⟩ : sv.x = sx ∧ sv.y = sy ∧ sv.z = sz := by
      simpa using List.find?_some hfind
    have hst : posOf sv = (sx, sy, sz) := by
      simp [posOf, hx, hy, hz]
    have hsvmem : sv ∈ e.voxels := List.mem_of_find?_eq_some hfind
    have hpw : e.voxels.Pairwise fun a b => posOf a ≠ posOf b :=
      nodupPos_pairwise e.voxels hnd
    have hinv0 : FillInv e.voxels sv.color sv.material fc fm (sx, sy, sz)
        ⟨[(sx, sy, sz)], [(sx, sy, sz)], e.voxels⟩ := by
      refine ⟨by simp, List.nodup_singleton _, fun q hq => hq, ?_, ?_, ?_⟩
      · intro q hqv
        have hq1 : q = (sx, sy, sz) := by simpa using hqv
        subst hq1
        exact Region.base
      · dsimp only
        rw [paintApply_congr fc fm _ (fun _ => false) e.voxels (by
            intro p
            cases hmem : decide (p ∈ [((sx, sy, sz) : Pos)]) <;> simp [hmem]),
          paintApply_false]
      · intro p hpv hpq
        exact absurd hpv hpq
    have hmeas : fillMeasure e.voxels
        ⟨[(sx, sy, sz)], [(sx, sy, sz)], e.voxels⟩ ≤
        2 * e.voxels.length + 1 := by
      unfold fillMeasure
      dsimp only
      have h1 : ((e.voxels.map posOf).toFinset \
          [((sx, sy, sz) : Pos)].toFinset).card ≤
          (e.voxels.map posOf).toFinset.card :=
        Finset.card_le_card Finset.sdiff_subset
      have h2 : (e.voxels.map posOf).toFinset.card ≤
          (e.voxels.map posOf).length := List.toFinset_card_le _
      rw [List.length_map] at h2
      simp only [List.length_singleton]
      omega
    obtain ⟨hqnil, hinvF⟩ := bfsRun_drain e.voxels sv.color sv.material fc fm
      (sx, sy, sz) (2 * e.voxels.length + 1)
      ⟨[(sx, sy, sz)], [(sx, sy, sz)], e.voxels⟩ hinv0 hmeas
    set B := bfsRun sv.color sv.material fc fm (2 * e.voxels.length + 1)
      ⟨[(sx, sy, sz)], [(sx, sy, sz)], e.voxels⟩ with hB
    obtain ⟨hstartF, hnodupF, hqvF, hregF, hfieldF, hcloseF⟩ := hinvF
    constructor
    · rw [hPFv, hfieldF]
      unfold paintApply
      rw [List.length_map]
    · intro i v hvi
      have hvmem : v ∈ e.voxels := List.get?_mem hvi
      have hlookv : lookupAt e.voxels (posOf v) = some v :=
        lookupAt_self e.voxels hpw v hvmem
      have hmB : matchesB e.voxels sv.color sv.material (posOf v) =
          decide (v.color = sv.color ∧ v.material = sv.material) := by
        simp [matchesB, hlookv]
      have hgv : (paintFill sx sy sz fc fm e).voxels.get? i =
          some (if (decide (posOf v ∈ B.visited) &&
              !decide (posOf v ∈ B.queue) &&
              matchesB e.voxels sv.color sv.material (posOf v)) = true then
            { v with color := fc, material := fm } else v) := by
        rw [hPFv, hfieldF, paintApply_get?, hvi]
        rfl
      constructor
      · rintro ⟨hR, hcv, hmv⟩
        have hvis : posOf v ∈ B.visited :=
          region_visited_drained e.voxels sv.color sv.material fc fm
            (sx, sy, sz) B ⟨hstartF, hnodupF, hqvF, hregF, hfieldF, hcloseF⟩
            hqnil (posOf v) hR (by rw [hmB]; exact decide_eq_true ⟨hcv, hmv⟩)
        have hcondT : (decide (posOf v ∈ B.visited) &&
            !decide (posOf v ∈ B.queue) &&
            matchesB e.voxels sv.color sv.material (posOf v)) = true := by
          rw [hqnil, hmB]
          simp [hvis, hcv, hmv]
        rw [hgv, if_pos hcondT]
      · intro hnc
        rcases hcondB : (decide (posOf v ∈ B.visited) &&
            !decide (posOf v ∈ B.queue) &&
            matchesB e.voxels sv.color sv.material (posOf v)) with _ | _
        · rw [hgv, hcondB]
          simp
        · exfalso
          rw [Bool.and_eq_true, Bool.and_eq_true] at hcondB
          obtain ⟨⟨hv1, hv2⟩, hm3⟩ := hcondB
          rw [hmB] at hm3
          obtain ⟨hcv, hmv⟩ := of_decide_eq_true hm3
          exact hnc ⟨hregF (posOf v) (of_decide_eq_true hv1), hcv, hmv⟩

/-- Witness for C7 on a three-voxel row, filling color 30 from the origin. -/
theorem paint_bucket_flood_fill_scope_witness :
    NodupPos exEngineC7.voxels ∧
    exEngineC7.voxels.find?
      (fun v => decide (v.x = 0 ∧ v.y = 0 ∧ v.z = 0)) = some exVoxC7A ∧
    ((exVoxC7A.color = 30 ∧ exVoxC7A.material = VoxelMaterial.matte →
        paintFill 0 0 0 30 VoxelMaterial.matte exEngineC7 = exEngineC7) ∧
     (¬(exVoxC7A.color = 30 ∧ exVoxC7A.material = VoxelMaterial.matte) →
        (paintFill 0 0 0 30 VoxelMaterial.matte exEngineC7).voxels.length =
          exEngineC7.voxels.length ∧
        ∀ (i : Nat) (v : SimulationVoxel), exEngineC7.voxels.get? i = some v →
          ((Region exEngineC7.voxels exVoxC7A.color exVoxC7A.material (0, 0, 0)
              (posOf v) ∧ v.color = exVoxC7A.color ∧
              v.material = exVoxC7A.material) →
            (paintFill 0 0 0 30 VoxelMaterial.matte exEngineC7).voxels.get? i =
              some { v with color := 30, material := VoxelMaterial.matte }) ∧
          (¬(Region exEngineC7.voxels exVoxC7A.color exVoxC7A.material (0, 0, 0)
              (posOf v) ∧ v.color = exVoxC7A.color ∧
              v.material = exVoxC7A.material) →
            (paintFill 0 0 0 30 VoxelMaterial.matte exEngineC7).voxels.get? i =
              some v))) :=
  ⟨by with_unfolding_all decide, by with_unfolding_all decide,
   paint_bucket_flood_fill_scope 0 0 0 30 VoxelMaterial.matte exEngineC7
     exVoxC7A (by with_unfolding_all decide) (by with_unfolding_all decide)⟩

/-- Witness for C5 on a one-voxel engine rebuilt towards a two-voxel model. -/
theorem assignment_conservation_witness :
    ¬(exEngineC5.state = .rebuilding ∨ exEngineC5.mode = .build) ∧
    ((rebuild (fun _ => 0) (fun k => (k : ℚ)) 7 exTargetsC5
        exEngineC5).rebuildTargets.length =
      max (max exEngineC5.voxels.length 1) exTargetsC5.length ∧
    (rebuild (fun _ => 0) (fun k => (k : ℚ)) 7 exTargetsC5
        exEngineC5).rebuildTargets.length =
      (rebuild (fun _ => 0) (fun k => (k : ℚ)) 7 exTargetsC5
        exEngineC5).voxels.length ∧
    (rebuild (fun _ => 0) (fun k => (k : ℚ)) 7 exTargetsC5
        exEngineC5).rebuildTargets.countP
      (fun rt => !rt.isRubble) = exTargetsC5.length ∧
    exTargetsC5.length ≤
      (rebuild (fun _ => 0) (fun k => (k : ℚ)) 7 exTargetsC5
        exEngineC5).rebuildTargets.length) :=
  ⟨by decide,
   assignment_conservation (fun _ => 0) (fun k => (k : ℚ)) 7 exTargetsC5
     exEngineC5 (by decide)⟩

end VoxelToy
